import Mathlib

/-!
Verification development for the building electrical-connection planner.

This file gives a shallow embedding, in Lean 4, of the repair-prioritization
and phase-scheduling engine of the repository:

* `reseau_model.py`: the `Infra` and `Batiment` data model, the fixed
  price/duration rate tables, the per-segment difficulty function, and the
  grouping of segments into buildings (`group_infras_by_building`).
* `planning_phases.py`: the dynamic difficulty function
  (`compute_building_difficulty_dynamic`), the cost/duration/workforce
  calculator (`compute_building_cost_and_duration`), the greedy tiered
  scheduler (`select_order_with_repair`), the phase assigner
  (`assign_phases`) and the report-building part of `main`.

Modelling conventions:
* Python floats are modelled as exact rationals (`ℚ`); the algorithms use
  only `+`, `*`, `/`, `max` and order comparisons.
* Python `set` objects are modelled as `Finset String`.
* Python dicts keyed by building id are modelled as lists with first-match
  lookup; the pipeline produces buildings with pairwise distinct ids, and
  theorems that depend on dict-lookup semantics assume id-uniqueness.
* Python's stable `list.sort(key=...)` is modelled by the stable
  `List.insertionSort` (stable sorts by a total preorder agree extensionally).
* The in-place mutation `infra.repair_infra()` performed on a just-selected
  building is not observable through the scheduler's return value (after the
  global dedup each `Infra` object belongs to exactly one building, the
  selected building is removed from `remaining`, and no later computation
  reads `infra_state` of a selected building), so the embedding threads only
  the global repaired-id set.
* The display rounding `round(x, 2)` applied by `main` when serializing is
  presentational; plan rows carry the unrounded rationals.
-/

namespace PlanRacc

/-- Python `str.strip()` modelled on the character list of a string. -/
def trimChars (l : List Char) : List Char :=
  ((l.dropWhile Char.isWhitespace).reverse.dropWhile Char.isWhitespace).reverse

/-- Python `str.lower()` on one character, for the ASCII range (the inputs
this pipeline normalizes are ASCII after the source's NFKD accent folding,
which is the identity on ASCII). -/
def lowerChar (c : Char) : Char :=
  if 'A' ≤ c ∧ c ≤ 'Z' then Char.ofNat (c.toNat + 32) else c

/-- Embeds `_normalize_infra_key` (`reseau_model.py`): strip, lowercase,
remove `'-'` and `' '`.  The NFKD accent-folding step of the source is the
identity on the ASCII keys used throughout this development. -/
def normalize_infra_key (value : String) : String :=
  if value = "" then ""
  else ⟨((trimChars value.data).map lowerChar).filter (fun c => !(c == '-' || c == ' '))⟩

/-- Embeds `_INFRA_PRICE_MAPPING` (`reseau_model.py`): price per meter keyed
by normalized technical type. -/
def INFRA_PRICE_MAPPING : List (String × ℚ) :=
  [("aerien", 500), ("semiaerien", 750), ("fourreau", 900)]

/-- Embeds `_INFRA_DURATION_MAPPING` (`reseau_model.py`): hours per meter
keyed by normalized technical type. -/
def INFRA_DURATION_MAPPING : List (String × ℚ) :=
  [("aerien", 2), ("semiaerien", 4), ("fourreau", 5)]

/-- Embeds the `Infra` dataclass (`reseau_model.py`). -/
structure Infra where
  building_id : String
  infra_id : String
  longueur : ℚ
  type_infra : String
  nb_houses : ℤ
  infra_state : String := "a_remplacer"
deriving DecidableEq, Repr

/-- Embeds `Infra.get_prix`: price-table lookup with 0 fallback. -/
def Infra.get_prix (i : Infra) : ℚ :=
  (INFRA_PRICE_MAPPING.lookup (normalize_infra_key i.type_infra)).getD 0

/-- Embeds `Infra.get_duree`: duration-table lookup with 0 fallback. -/
def Infra.get_duree (i : Infra) : ℚ :=
  (INFRA_DURATION_MAPPING.lookup (normalize_infra_key i.type_infra)).getD 0

/-- Embeds `Infra.get_infra_difficulty`: 0 for an intact segment, otherwise
`longueur * duree * prix / nb_houses` with the denominator floored at 1. -/
def Infra.get_infra_difficulty (i : Infra) : ℚ :=
  if i.infra_state = "infra_intacte" then 0
  else
    let denominator : ℤ := if i.nb_houses > 0 then i.nb_houses else 1
    (i.longueur * i.get_duree * i.get_prix) / (denominator : ℚ)

/-- Embeds `Infra.repair_infra`: the segment state becomes `infra_intacte`. -/
def Infra.repair_infra (i : Infra) : Infra :=
  { i with infra_state := "infra_intacte" }

/-- Embeds the `Batiment` dataclass (`reseau_model.py`). -/
structure Batiment where
  id_building : String
  type_batiment : String
  list_infras : List Infra
deriving DecidableEq, Repr

/-- Embeds `Batiment.get_building_difficulty`: the sum of the difficulties of
the attached segments (the Python `sum`/`__radd__` reduction). -/
def Batiment.get_building_difficulty (b : Batiment) : ℚ :=
  (b.list_infras.map Infra.get_infra_difficulty).sum

/-- Embeds `compute_building_difficulty_dynamic` (`planning_phases.py`): the
loop accumulates segment difficulties, skipping segments whose id is in the
globally repaired set. -/
def compute_building_difficulty_dynamic (b : Batiment) (repaired_ids : Finset String) : ℚ :=
  b.list_infras.foldl
    (fun total infra =>
      if infra.infra_id ∈ repaired_ids then total
      else total + infra.get_infra_difficulty) 0

/-- The `{"cost_eur", "duration_h", "workers_total"}` dict returned by
`compute_building_cost_and_duration`. -/
structure Metrics where
  cost_eur : ℚ
  duration_h : ℚ
  workers_total : ℤ
deriving DecidableEq, Repr

/-- Embeds `compute_building_cost_and_duration` (`planning_phases.py`):
crew clamped to `[1, 4]`, cost summed over all segments, duration the
maximum per-segment duration (0 when there is no segment), workforce
`effective_workers * nb_infra`. -/
def compute_building_cost_and_duration (b : Batiment) (workers_per_infra : ℤ) : Metrics :=
  let effective_workers : ℤ := max 1 (min 4 workers_per_infra)
  let total_cost := (b.list_infras.map (fun i => i.longueur * i.get_prix)).sum
  let per_infra_hours :=
    b.list_infras.map (fun i => (i.longueur * i.get_duree) / (effective_workers : ℚ))
  let total_hours : ℚ :=
    match per_infra_hours with
    | [] => 0
    | h :: t => t.foldl max h
  { cost_eur := total_cost
    duration_h := total_hours
    workers_total := effective_workers * b.list_infras.length }

/-- The sort key relation used by `current_sorted`: compare scored pairs by
their difficulty component. -/
def diffLE : (ℚ × String) → (ℚ × String) → Prop := fun x y => x.1 ≤ y.1

instance : DecidableRel diffLE := fun x y => inferInstanceAs (Decidable (x.1 ≤ y.1))

instance : IsTotal (ℚ × String) diffLE := ⟨fun x y => le_total x.1 y.1⟩

instance : IsTrans (ℚ × String) diffLE := ⟨fun _ _ _ h1 h2 => le_trans h1 h2⟩

/-- Dict lookup `remaining[bid]` on the scheduler's remaining-buildings map. -/
def findBuilding (remaining : List Batiment) (bid : String) : Option Batiment :=
  remaining.find? (fun b => b.id_building == bid)

/-- Embeds the inner helper `current_sorted` of `select_order_with_repair`:
score every pool id by its dynamic difficulty, sort stably by the score, and
return the ids. -/
def current_sorted (remaining : List Batiment) (repaired_ids : Finset String)
    (ids : List String) : List String :=
  let scored := ids.filterMap (fun bid =>
    (findBuilding remaining bid).map
      (fun b => (compute_building_difficulty_dynamic b repaired_ids, bid)))
  (scored.insertionSort diffLE).map Prod.snd

/-- The scheduler's running state: the `remaining` dict (as a list of
buildings with first-match lookup), the global repaired-segment-id set, the
output order, and the `pick_cost` / `pick_metrics` maps. -/
structure SchedState where
  remaining : List Batiment
  repaired_ids : Finset String
  ordered : List String
  pick_cost : List (String × ℚ)
  pick_metrics : List (String × Metrics)
deriving DecidableEq

/-- One selection round of the per-tier `while pool:` loop in
`select_order_with_repair` (`planning_phases.py`, lines 75-89), applied to
the head `bid` of the freshly sorted pool with looked-up building `b`:
record the selection-time difficulty and metrics, append `bid` to the order,
add all of the building's segment ids to the global repaired set, and remove
the building from `remaining`. -/
def schedPick (st : SchedState) (bid : String) (b : Batiment) : SchedState :=
  { remaining := st.remaining.filter (fun x => !(x.id_building == bid))
    repaired_ids := b.list_infras.foldl (fun s i => insert i.infra_id s) st.repaired_ids
    ordered := st.ordered ++ [bid]
    pick_cost := st.pick_cost ++ [(bid, compute_building_difficulty_dynamic b st.repaired_ids)]
    pick_metrics := st.pick_metrics ++ [(bid, compute_building_cost_and_duration b 4)] }

/-- Fuel-indexed form of the per-tier `while pool:` loop of
`select_order_with_repair`: re-sort the pool by dynamic difficulty, pop the
head, process it with `schedPick`, and keep only the pool entries still
present in `remaining`.  Each iteration strictly shrinks the pool, so fuel
`pool.length` (as supplied by `runPool`) always suffices; the fuel-exhausted
branch is unreachable under that call pattern. -/
def runPoolFuel : ℕ → SchedState → List String → SchedState
  | 0, st, _ => st
  | fuel + 1, st, pool =>
    match current_sorted st.remaining st.repaired_ids pool with
    | [] => st
    | bid :: rest =>
      match findBuilding st.remaining bid with
      | none => st
      | some b =>
        let st' := schedPick st bid b
        runPoolFuel fuel st' (rest.filter (fun p => (findBuilding st'.remaining p).isSome))

/-- The per-tier `while pool:` loop of `select_order_with_repair`. -/
def runPool (st : SchedState) (pool : List String) : SchedState :=
  runPoolFuel pool.length st pool

/-- The scheduler's initial state: every input building remaining, nothing
repaired, empty order and maps. -/
def schedInit (buildings : List Batiment) : SchedState :=
  { remaining := buildings, repaired_ids := ∅, ordered := [],
    pick_cost := [], pick_metrics := [] }

/-- `pool = [bid for bid in group if bid in remaining]` at the start of a
tier of `select_order_with_repair`. -/
def tierPool (st : SchedState) (grp : List String) : List String :=
  grp.filter (fun bid => (findBuilding st.remaining bid).isSome)

/-- One tier of `select_order_with_repair`: restrict the group to the ids
still in `remaining`, then run the greedy loop on that pool. -/
def runTier (st : SchedState) (grp : List String) : SchedState :=
  runPool st (tierPool st grp)

/-- The `hopital` tier group of `select_order_with_repair`. -/
def hospitalIds (buildings : List Batiment) : List String :=
  (buildings.filter (fun b => b.type_batiment == "hopital")).map Batiment.id_building

/-- The `ecole` tier group of `select_order_with_repair`. -/
def schoolIds (buildings : List Batiment) : List String :=
  (buildings.filter (fun b => b.type_batiment == "ecole")).map Batiment.id_building

/-- The catch-all tier group of `select_order_with_repair`. -/
def otherIds (buildings : List Batiment) : List String :=
  (buildings.filter
    (fun b => !(b.type_batiment == "hopital") && !(b.type_batiment == "ecole"))).map
    Batiment.id_building

/-- Embeds `select_order_with_repair` (`planning_phases.py`): partition the
buildings into the `hopital`, `ecole` and other tiers, run the greedy loop
tier by tier on the ids still in `remaining`, then append any leftover
remaining building with default difficulty 0 and freshly computed metrics. -/
def select_order_with_repair (buildings : List Batiment) :
    List String × List (String × ℚ) × List (String × Metrics) :=
  let st1 := runTier (schedInit buildings) (hospitalIds buildings)
  let st2 := runTier st1 (schoolIds buildings)
  let st3 := runTier st2 (otherIds buildings)
  let ordered := st3.ordered ++ st3.remaining.map Batiment.id_building
  let pick_cost := st3.remaining.foldl
    (fun c b => if (c.lookup b.id_building).isSome then c else c ++ [(b.id_building, (0 : ℚ))])
    st3.pick_cost
  let pick_metrics := st3.remaining.foldl
    (fun c b => if (c.lookup b.id_building).isSome then c
      else c ++ [(b.id_building, compute_building_cost_and_duration b 4)])
    st3.pick_metrics
  (ordered, pick_cost, pick_metrics)

/-- Dict lookup `id_to_b[bid]` used by `assign_phases` and `main`. -/
def id_to_b (buildings : List Batiment) (bid : String) : Option Batiment :=
  buildings.find? (fun b => b.id_building == bid)

/-- The category test `id_to_b[bid].type_batiment == "hopital"` used by
`assign_phases`.  The Python lookup raises on an id absent from
`buildings`; in the pipeline every id of `order` resolves, and the embedding
classifies an unresolvable id as non-hospital. -/
def isHospitalIn (buildings : List Batiment) (bid : String) : Bool :=
  match id_to_b buildings bid with
  | some b => b.type_batiment == "hopital"
  | none => false

/-- The phase chosen by `assign_phases` for a non-hospital building, from the
cumulative difficulty `cum` accumulated strictly before it and the three
thresholds. -/
def phaseOf (t1 t2 t3 cum : ℚ) : ℤ :=
  if cum < t1 then 1 else if cum < t2 then 2 else if cum < t3 then 3 else 4

/-- Embeds `DataFrame.drop_duplicates(subset=["id_batiments"], keep="first")`
applied by `assign_phases` to the phase records. -/
def dedupFirst (l : List (String × ℤ)) : List (String × ℤ) :=
  (l.foldl
    (fun (acc : List (String × ℤ) × Finset String) p =>
      if p.1 ∈ acc.2 then acc else (acc.1 ++ [p], insert p.1 acc.2))
    ([], ∅)).1

/-- Embeds `assign_phases` (`planning_phases.py`): hospitals (in order) get
phase 0; the non-hospitals, visited in order, are bucketed by the cumulative
selection-time difficulty accumulated strictly before them against the
thresholds `0.40 * total`, `0.40 * total + 0.20 * total` and
`0.40 * total + 0.20 * total + 0.20 * total`; duplicate ids keep the first
record. -/
def assign_phases (order : List String) (buildings : List Batiment)
    (pick_cost : List (String × ℚ)) : List (String × ℤ) :=
  let hospitals := order.filter (fun bid => isHospitalIn buildings bid)
  let non_hospitals := order.filter (fun bid => !(isHospitalIn buildings bid))
  let hospital_records := hospitals.map (fun bid => (bid, (0 : ℤ)))
  let total_cost := (non_hospitals.map (fun bid => (pick_cost.lookup bid).getD 0)).sum
  let t1 := (0.40 : ℚ) * total_cost
  let t2 := t1 + (0.20 : ℚ) * total_cost
  let t3 := t2 + (0.20 : ℚ) * total_cost
  let nh_records := (non_hospitals.foldl
    (fun (acc : ℚ × List (String × ℤ)) bid =>
      (acc.1 + (pick_cost.lookup bid).getD 0,
       acc.2 ++ [(bid, phaseOf t1 t2 t3 acc.1)]))
    (0, [])).2
  dedupFirst (hospital_records ++ nh_records)

/-- Substring containment (Python's `'hopital' in t`). -/
def containsSub (s sub : String) : Bool := decide (sub.toList <:+: s.toList)

/-- Embeds `normalize_type_batiment` (`reseau_model.py`): strip, lowercase,
remove spaces, then dispatch on the substrings `hopital` / `ecole` /
`habitation`, falling back to the normalized text or `other`.  As in
`normalize_infra_key`, accent folding is the identity on ASCII input. -/
def normalize_type_batiment (tp : String) : String :=
  if tp = "" then "other"
  else
    let t : String := ⟨((trimChars tp.data).map lowerChar).filter (fun c => !(c == ' '))⟩
    if containsSub t "hopital" then "hopital"
    else if containsSub t "ecole" then "ecole"
    else if containsSub t "habitation" then "habitation"
    else if t = "" then "other" else t

/-- One row of the network DataFrame, restricted to the columns
`group_infras_by_building` reads (`id_batiment`, `type_batiment`); a `none`
type models a NaN cell. -/
structure DfRow where
  id_batiment : String
  type_batiment : Option String
deriving DecidableEq, Repr

/-- The `building_type_map` loop of `group_infras_by_building`: first seen
type per building id, NaN mapping to `other`. -/
def buildTypeMap (df : List DfRow) : List (String × String) :=
  df.foldl
    (fun m row =>
      if (m.lookup row.id_batiment).isSome then m
      else m ++ [(row.id_batiment,
        match row.type_batiment with
        | some tp => normalize_type_batiment tp
        | none => "other")])
    []

/-- `by_building.setdefault(bid, []).append(infra)`: append the infra to the
bucket of `bid`, creating the bucket at the end on first use. -/
def appendToGroup : List (String × List Infra) → String → Infra → List (String × List Infra)
  | [], bid, i => [(bid, [i])]
  | (k, l) :: rest, bid, i =>
    if k = bid then (k, l ++ [i]) :: rest else (k, l) :: appendToGroup rest bid i

/-- One step of the grouping loop of `group_infras_by_building`: skip the
infra if its id was already assigned to some building, otherwise add it to
its building's bucket and record the id. -/
def groupStep (acc : List (String × List Infra) × Finset String) (infra : Infra) :
    List (String × List Infra) × Finset String :=
  if infra.infra_id ∈ acc.2 then acc
  else (appendToGroup acc.1 infra.building_id infra, insert infra.infra_id acc.2)

/-- First-seen-order deduplication, modelling
`df["id_batiment"].dropna().unique()`. -/
def uniqueFirst (l : List String) : List String :=
  (l.foldl
    (fun (acc : List String × Finset String) x =>
      if x ∈ acc.2 then acc else (acc.1 ++ [x], insert x acc.2))
    ([], ∅)).1

/-- Embeds `group_infras_by_building` (`reseau_model.py`): group the infras
by building id with global first-seen-wins dedup on `infra_id`, add an empty
bucket for every building id appearing in the DataFrame, and build the
`Batiment` records with the first-seen normalized type (default `other`). -/
def group_infras_by_building (df : List DfRow) (infras : List Infra) : List Batiment :=
  let type_map := buildTypeMap df
  let grouped := (infras.foldl groupStep ([], ∅)).1
  let all_building_ids := uniqueFirst (df.map DfRow.id_batiment)
  let withAll := all_building_ids.foldl
    (fun g bid => if (g.lookup bid).isSome then g else g ++ [(bid, [])]) grouped
  withAll.map (fun p => ⟨p.1, (type_map.lookup p.1).getD "other", p.2⟩)

/-- One output row of `main` (`planning_phases.py`).  `duree_heures` and
`cout_euros` carry the exact rationals; `main` rounds them to two decimals
only when serializing. -/
structure PlanRow where
  id_batiments : String
  phase : ℤ
  nb_infra : ℕ
  nb_ouvriers : ℤ
  duree_heures : ℚ
  cout_euros : ℚ
  nb_maisons : ℤ
  hopital_ok : Option Bool
deriving DecidableEq, Repr

/-- Embeds the core of `main` (`planning_phases.py`) after data loading:
filter out the buildings with no infra, run the scheduler on the rest,
assign phases, and build one output row per phase record.  The Python
`pick_metrics.get(bid) or compute_building_cost_and_duration(b, 4)` fallback
is the lookup-with-default below (a metrics dict is always truthy). -/
def mainPlan (buildings : List Batiment) : List PlanRow :=
  let buildings_with_infra := buildings.filter (fun b => 0 < b.list_infras.length)
  let res := select_order_with_repair buildings_with_infra
  let phases := assign_phases res.1 buildings res.2.1
  phases.filterMap (fun rec =>
    (id_to_b buildings rec.1).map (fun b =>
      let metrics := (res.2.2.lookup rec.1).getD (compute_building_cost_and_duration b 4)
      let nb_maisons_vals := b.list_infras.map Infra.nb_houses
      let nb_maisons : ℤ :=
        match nb_maisons_vals with
        | [] => 0
        | h :: t => t.foldl max h
      { id_batiments := rec.1
        phase := rec.2
        nb_infra := b.list_infras.length
        nb_ouvriers := metrics.workers_total
        duree_heures := metrics.duration_h
        cout_euros := metrics.cost_eur
        nb_maisons := nb_maisons
        hopital_ok :=
          if b.type_batiment == "hopital" then some (decide (metrics.duration_h ≤ 20 * 0.8))
          else none }))

/-! ## Helper lemmas -/

theorem le_foldl_max_init (h : ℚ) (t : List ℚ) : h ≤ t.foldl max h := by
  induction t generalizing h with
  | nil => exact le_refl h
  | cons x xs ih => exact le_trans (le_max_left h x) (ih (max h x))

theorem le_foldl_max (h : ℚ) (t : List ℚ) : ∀ x ∈ h :: t, x ≤ t.foldl max h := by
  induction t generalizing h with
  | nil => simp
  | cons y ys ih =>
    intro x hx
    rcases List.mem_cons.mp hx with rfl | hx'
    · exact le_trans (le_max_left x y) (le_foldl_max_init _ _)
    · rcases List.mem_cons.mp hx' with rfl | hx''
      · exact le_trans (le_max_right h x) (le_foldl_max_init _ _)
      · exact ih (max h y) x (List.mem_cons_of_mem _ hx'')

theorem foldl_max_mem (h : ℚ) (t : List ℚ) : t.foldl max h ∈ h :: t := by
  induction t generalizing h with
  | nil => simp
  | cons x xs ih =>
    simp only [List.foldl_cons]
    have hmem := ih (max h x)
    rcases List.mem_cons.mp hmem with heq | hmem'
    · rw [heq]
      rcases max_choice h x with hc | hc <;> rw [hc] <;> simp
    · exact List.mem_cons_of_mem _ (List.mem_cons_of_mem _ hmem')

/-! ## C4: per-segment difficulty -/

/-- Segment A of the spec's worked example: length 100, aerial, 10 houses. -/
def exampleInfraA : Infra :=
  { building_id := "X", infra_id := "A", longueur := 100, type_infra := "aerien", nb_houses := 10 }

/-- Segment B of the spec's worked example: length 50, conduit, 5 houses. -/
def exampleInfraB : Infra :=
  { building_id := "X", infra_id := "B", longueur := 50, type_infra := "fourreau", nb_houses := 5 }

/-- The spec's worked example building X holding segments A and B. -/
def exampleBuildingX : Batiment :=
  { id_building := "X", type_batiment := "other", list_infras := [exampleInfraA, exampleInfraB] }

theorem get_infra_difficulty_intact (i : Infra) (h : i.infra_state = "infra_intacte") :
    i.get_infra_difficulty = 0 := by
  simp [Infra.get_infra_difficulty, h]

theorem get_infra_difficulty_active (i : Infra) (h : i.infra_state ≠ "infra_intacte") :
    i.get_infra_difficulty =
      (i.longueur * i.get_duree * i.get_prix) / ((max i.nb_houses 1 : ℤ) : ℚ) := by
  have hden : (if i.nb_houses > 0 then i.nb_houses else 1) = max i.nb_houses 1 := by omega
  simp only [Infra.get_infra_difficulty, if_neg h, hden]

theorem rates_of_unrecognized (i : Infra)
    (h : INFRA_PRICE_MAPPING.lookup (normalize_infra_key i.type_infra) = none) :
    i.get_prix = 0 ∧ i.get_duree = 0 := by
  constructor
  · simp [Infra.get_prix, h]
  · have hd : INFRA_DURATION_MAPPING.lookup (normalize_infra_key i.type_infra) = none := by
      simp only [INFRA_PRICE_MAPPING, List.lookup] at h
      simp only [INFRA_DURATION_MAPPING, List.lookup]
      split at h
      · exact absurd h (by simp)
      · split at h
        · exact absurd h (by simp)
        · split at h
          · exact absurd h (by simp)
          · simp_all
    simp [Infra.get_duree, hd]

theorem exampleInfraA_difficulty : exampleInfraA.get_infra_difficulty = 10000 := by
  have hs : exampleInfraA.infra_state ≠ "infra_intacte" := by decide
  have hp : exampleInfraA.get_prix = 500 := by decide
  have hd : exampleInfraA.get_duree = 2 := by decide
  rw [get_infra_difficulty_active _ hs, hp, hd]
  norm_num [exampleInfraA]

theorem exampleInfraB_difficulty : exampleInfraB.get_infra_difficulty = 45000 := by
  have hs : exampleInfraB.infra_state ≠ "infra_intacte" := by decide
  have hp : exampleInfraB.get_prix = 900 := by decide
  have hd : exampleInfraB.get_duree = 5 := by decide
  rw [get_infra_difficulty_active _ hs, hp, hd]
  norm_num [exampleInfraB]

/-- C4: `get_infra_difficulty` is 0 for a repaired segment and otherwise
`(length * hours_per_meter * price_per_meter) / max(house_count, 1)`; the
rate table maps aerien to 500/2, semiaerien to 750/4, fourreau to 900/5 and
an unrecognized type to 0/0; on the worked example the segment difficulties
are 10000 and 45000 and the building difficulty is 55000. -/
theorem C4_segment_difficulty :
    (∀ i : Infra, i.infra_state = "infra_intacte" → i.get_infra_difficulty = 0) ∧
    (∀ i : Infra, i.infra_state ≠ "infra_intacte" →
      i.get_infra_difficulty =
        (i.longueur * i.get_duree * i.get_prix) / ((max i.nb_houses 1 : ℤ) : ℚ)) ∧
    (INFRA_PRICE_MAPPING.lookup "aerien" = some 500 ∧
      INFRA_DURATION_MAPPING.lookup "aerien" = some 2) ∧
    (INFRA_PRICE_MAPPING.lookup "semiaerien" = some 750 ∧
      INFRA_DURATION_MAPPING.lookup "semiaerien" = some 4) ∧
    (INFRA_PRICE_MAPPING.lookup "fourreau" = some 900 ∧
      INFRA_DURATION_MAPPING.lookup "fourreau" = some 5) ∧
    (∀ i : Infra, INFRA_PRICE_MAPPING.lookup (normalize_infra_key i.type_infra) = none →
      i.get_prix = 0 ∧ i.get_duree = 0) ∧
    exampleInfraA.get_infra_difficulty = 10000 ∧
    exampleInfraB.get_infra_difficulty = 45000 ∧
    exampleBuildingX.get_building_difficulty = 55000 := by
  refine ⟨get_infra_difficulty_intact, get_infra_difficulty_active, ⟨rfl, rfl⟩, ⟨rfl, rfl⟩,
    ⟨rfl, rfl⟩, rates_of_unrecognized, exampleInfraA_difficulty, exampleInfraB_difficulty, ?_⟩
  simp only [Batiment.get_building_difficulty, exampleBuildingX, List.map_cons, List.map_nil,
    List.sum_cons, List.sum_nil, exampleInfraA_difficulty, exampleInfraB_difficulty]
  norm_num

/-- Witness for C4: the repaired-segment clause applied to the repaired
segment A, and the unrecognized-type clause applied to a segment of type
`unknown`. -/
theorem C4_segment_difficulty_witness :
    Infra.get_infra_difficulty (Infra.repair_infra exampleInfraA) = 0 ∧
    Infra.get_prix
      { building_id := "X", infra_id := "C", longueur := 1,
        type_infra := "unknown", nb_houses := 1 } = 0 :=
  ⟨C4_segment_difficulty.1 _ rfl,
    (C4_segment_difficulty.2.2.2.2.2.1
      { building_id := "X", infra_id := "C", longueur := 1,
        type_infra := "unknown", nb_houses := 1 } (by decide)).1⟩

/-! ## C5: cost, duration and workforce -/

/-- C5: for every building and requested crew size, the metrics are: cost =
sum of `length * price` over all segments, and unchanged if every segment is
marked repaired (the repaired state is ignored); duration = the maximum over
the segments of `(length * hours) / clamp(crew, 1, 4)` and 0 with no
segment; workforce = `clamp(crew, 1, 4) * segment count`. -/
theorem C5_metrics (b : Batiment) (crew : ℤ) :
    (compute_building_cost_and_duration b crew).cost_eur =
      (b.list_infras.map (fun i => i.longueur * i.get_prix)).sum ∧
    compute_building_cost_and_duration
      { b with list_infras := b.list_infras.map Infra.repair_infra } crew =
      compute_building_cost_and_duration b crew ∧
    (∀ i ∈ b.list_infras,
      (i.longueur * i.get_duree) / ((max 1 (min 4 crew) : ℤ) : ℚ) ≤
        (compute_building_cost_and_duration b crew).duration_h) ∧
    (b.list_infras = [] → (compute_building_cost_and_duration b crew).duration_h = 0) ∧
    (b.list_infras ≠ [] → ∃ i ∈ b.list_infras,
      (compute_building_cost_and_duration b crew).duration_h =
        (i.longueur * i.get_duree) / ((max 1 (min 4 crew) : ℤ) : ℚ)) ∧
    (compute_building_cost_and_duration b crew).workers_total =
      max 1 (min 4 crew) * b.list_infras.length := by
  refine ⟨rfl, ?_, ?_, ?_, ?_, rfl⟩
  · have hmap1 : (b.list_infras.map Infra.repair_infra).map
        (fun i => i.longueur * i.get_prix) = b.list_infras.map (fun i => i.longueur * i.get_prix) := by
      rw [List.map_map]; rfl
    have hmap2 : (b.list_infras.map Infra.repair_infra).map
        (fun i => (i.longueur * i.get_duree) / ((max 1 (min 4 crew) : ℤ) : ℚ)) =
        b.list_infras.map (fun i => (i.longueur * i.get_duree) / ((max 1 (min 4 crew) : ℤ) : ℚ)) := by
      rw [List.map_map]; rfl
    simp only [compute_building_cost_and_duration, hmap1, hmap2, List.length_map]
  · intro i hi
    cases hl : b.list_infras with
    | nil => rw [hl] at hi; exact absurd hi (List.not_mem_nil i)
    | cons x xs =>
      simp only [compute_building_cost_and_duration, hl, List.map_cons]
      exact le_foldl_max _ _ _
        (List.mem_cons.mpr (by
          rcases List.mem_cons.mp (hl ▸ hi) with rfl | hmem
          · exact Or.inl rfl
          · exact Or.inr (List.mem_map_of_mem _ hmem)))
  · intro hl
    simp [compute_building_cost_and_duration, hl]
  · intro hl
    cases hl' : b.list_infras with
    | nil => exact absurd hl' hl
    | cons x xs =>
      simp only [compute_building_cost_and_duration, hl', List.map_cons]
      have hmem := foldl_max_mem
        ((x.longueur * x.get_duree) / ((max 1 (min 4 crew) : ℤ) : ℚ))
        (xs.map (fun i => (i.longueur * i.get_duree) / ((max 1 (min 4 crew) : ℤ) : ℚ)))
      rcases List.mem_cons.mp hmem with heq | hmem'
      · exact ⟨x, List.mem_cons_self x xs, heq⟩
      · rcases List.mem_map.mp hmem' with ⟨i, hi, hieq⟩
        exact ⟨i, List.mem_cons_of_mem _ hi, hieq.symm⟩

/-- Witness for C5: the worked-example building with crew 4 — duration is
attained at one of its segments and every segment duration is below it. -/
theorem C5_metrics_witness :
    (exampleBuildingX.list_infras ≠ [] → ∃ i ∈ exampleBuildingX.list_infras,
      (compute_building_cost_and_duration exampleBuildingX 4).duration_h =
        (i.longueur * i.get_duree) / ((max 1 (min 4 (4:ℤ)) : ℤ) : ℚ)) ∧
    exampleBuildingX.list_infras ≠ [] :=
  ⟨(C5_metrics exampleBuildingX 4).2.2.2.2.1, by decide⟩

/-! ## C3: the repaired set only grows, and a repaired segment contributes 0 -/

theorem cbdd_foldl (l : List Infra) (r : Finset String) (init : ℚ) :
    l.foldl
      (fun total infra =>
        if infra.infra_id ∈ r then total else total + infra.get_infra_difficulty) init =
    init + ((l.filter (fun i => !(decide (i.infra_id ∈ r)))).map Infra.get_infra_difficulty).sum := by
  induction l generalizing init with
  | nil => simp
  | cons x xs ih =>
    by_cases hx : x.infra_id ∈ r
    · simp [hx, ih]
    · simp only [List.foldl_cons, if_neg hx, ih, List.filter_cons, decide_eq_true hx]
      simp [hx]
      ring

theorem compute_building_difficulty_dynamic_eq (b : Batiment) (r : Finset String) :
    compute_building_difficulty_dynamic b r =
      ((b.list_infras.filter (fun i => !(decide (i.infra_id ∈ r)))).map
        Infra.get_infra_difficulty).sum := by
  simpa using cbdd_foldl b.list_infras r 0

theorem cbdd_erase_repaired (b : Batiment) (r : Finset String) (i : Infra)
    (hmem : i.infra_id ∈ r) :
    compute_building_difficulty_dynamic b r =
      compute_building_difficulty_dynamic
        { b with list_infras :=
            b.list_infras.filter (fun j => !(j.infra_id == i.infra_id)) } r := by
  rw [compute_building_difficulty_dynamic_eq, compute_building_difficulty_dynamic_eq]
  simp only [List.filter_filter]
  congr 1
  refine congrArg (List.map Infra.get_infra_difficulty) ?_
  apply List.filter_congr
  intro j _
  by_cases hj : j.infra_id ∈ r
  · simp [hj]
  · have : j.infra_id ≠ i.infra_id := fun hc => hj (hc ▸ hmem)
    simp [hj, this]

theorem repaired_subset_foldl_insert (l : List Infra) (s : Finset String) :
    s ⊆ l.foldl (fun acc i => insert i.infra_id acc) s := by
  induction l generalizing s with
  | nil => simp
  | cons x xs ih => exact subset_trans (Finset.subset_insert _ _) (ih _)

theorem runPoolFuel_repaired_mono (f : ℕ) (st : SchedState) (pool : List String) :
    st.repaired_ids ⊆ (runPoolFuel f st pool).repaired_ids := by
  induction f generalizing st pool with
  | zero => simp [runPoolFuel]
  | succ n ih =>
    cases hcs : current_sorted st.remaining st.repaired_ids pool with
    | nil => simp [runPoolFuel, hcs]
    | cons bid rest =>
      cases hfb : findBuilding st.remaining bid with
      | none => simp [runPoolFuel, hcs, hfb]
      | some b =>
        simp only [runPoolFuel, hcs, hfb]
        refine subset_trans ?_ (ih _ _)
        simp only [schedPick]
        exact repaired_subset_foldl_insert _ _

/-- C3: during a tier loop of `select_order_with_repair` the global repaired
set only grows, and for any repaired-id set a segment whose id is in the set
contributes nothing to any building's dynamic difficulty (dropping every
copy of that segment from the building leaves the difficulty unchanged). -/
theorem C3_repaired_monotone_and_zero (st : SchedState) (pool : List String) :
    st.repaired_ids ⊆ (runPool st pool).repaired_ids ∧
    (∀ (s : Finset String) (b : Batiment) (i : Infra), i.infra_id ∈ s →
      compute_building_difficulty_dynamic b s =
        compute_building_difficulty_dynamic
          { b with list_infras :=
              b.list_infras.filter (fun j => !(j.infra_id == i.infra_id)) } s) :=
  ⟨runPoolFuel_repaired_mono _ _ _, fun s b i h => cbdd_erase_repaired b s i h⟩

/-- Witness for C3: with segment A's id globally repaired, dropping segment A
from the worked-example building leaves its dynamic difficulty unchanged. -/
theorem C3_repaired_monotone_and_zero_witness :
    compute_building_difficulty_dynamic exampleBuildingX (insert "A" ∅) =
      compute_building_difficulty_dynamic
        { exampleBuildingX with list_infras :=
            exampleBuildingX.list_infras.filter (fun j => !(j.infra_id == "A")) }
        (insert "A" ∅) :=
  (C3_repaired_monotone_and_zero ⟨[], ∅, [], [], []⟩ []).2 (insert "A" ∅)
    exampleBuildingX exampleInfraA (by decide)

/-! ## C1: each selection takes the pool's minimum dynamic difficulty -/

theorem mem_current_sorted {m : List Batiment} {r : Finset String} {ids : List String}
    {x : String} (hx : x ∈ current_sorted m r ids) :
    x ∈ ids ∧ (findBuilding m x).isSome := by
  simp only [current_sorted] at hx
  rcases List.mem_map.mp hx with ⟨pr, hpr, hsnd⟩
  have hsc : pr ∈ ids.filterMap (fun bid =>
      (findBuilding m bid).map
        (fun b => (compute_building_difficulty_dynamic b r, bid))) :=
    (List.perm_insertionSort diffLE _).mem_iff.mp hpr
  rcases List.mem_filterMap.mp hsc with ⟨bid, hbid, heq⟩
  cases hfb : findBuilding m bid with
  | none => rw [hfb] at heq; simp at heq
  | some b =>
    rw [hfb] at heq
    simp only [Option.map_some'] at heq
    have hpr := Option.some.inj heq
    have hx2 : pr.2 = bid := by rw [← hpr]
    rw [← hsnd, hx2]
    exact ⟨hbid, by rw [hfb]; rfl⟩

theorem mem_current_sorted_of (m : List Batiment) (r : Finset String) {ids : List String}
    {p : String} (hp : p ∈ ids) (hs : (findBuilding m p).isSome) :
    p ∈ current_sorted m r ids := by
  simp only [current_sorted]
  cases hfb : findBuilding m p with
  | none => rw [hfb] at hs; simp at hs
  | some b =>
    have hmem : (compute_building_difficulty_dynamic b r, p) ∈ ids.filterMap (fun bid =>
        (findBuilding m bid).map
          (fun b => (compute_building_difficulty_dynamic b r, bid))) :=
      List.mem_filterMap.mpr ⟨p, hp, by rw [hfb]; rfl⟩
    exact List.mem_map.mpr
      ⟨(compute_building_difficulty_dynamic b r, p),
        (List.perm_insertionSort diffLE _).symm.mem_iff.mp hmem, rfl⟩

theorem length_current_sorted_le (m : List Batiment) (r : Finset String) (ids : List String) :
    (current_sorted m r ids).length ≤ ids.length := by
  simp only [current_sorted, List.length_map, List.length_insertionSort]
  exact List.length_filterMap_le _ _

theorem current_sorted_head_min {m : List Batiment} {r : Finset String} {pool : List String}
    {bid : String} {rest : List String}
    (h : current_sorted m r pool = bid :: rest) {b : Batiment}
    (hb : findBuilding m bid = some b) :
    bid ∈ pool ∧
    ∀ p ∈ pool, ∀ bp, findBuilding m p = some bp →
      compute_building_difficulty_dynamic b r ≤ compute_building_difficulty_dynamic bp r := by
  have hbidmem : bid ∈ current_sorted m r pool := h ▸ List.mem_cons_self _ _
  refine ⟨(mem_current_sorted hbidmem).1, ?_⟩
  intro p hp bp hbp
  simp only [current_sorted] at h
  set scored := pool.filterMap (fun bid =>
    (findBuilding m bid).map
      (fun b => (compute_building_difficulty_dynamic b r, bid))) with hscored
  cases hsort : scored.insertionSort diffLE with
  | nil => rw [hsort] at h; simp at h
  | cons hd tl =>
    rw [hsort] at h
    simp only [List.map_cons, List.cons.injEq] at h
    -- hd is in scored, so hd = (difficulty of its building, hd.2) with hd.2 = bid
    have hhd : hd ∈ scored := by
      rw [← (List.perm_insertionSort diffLE scored).mem_iff, hsort]
      exact List.mem_cons_self _ _
    rcases List.mem_filterMap.mp hhd with ⟨q, hq, heq⟩
    cases hfq : findBuilding m q with
    | none => rw [hfq] at heq; simp at heq
    | some bq =>
      rw [hfq] at heq
      simp only [Option.map_some'] at heq
      have hhd := Option.some.inj heq
      have hq2 : q = bid := by rw [← hhd] at h; exact h.1
      subst hq2
      rw [hb] at hfq
      have hbq : bq = b := by injection hfq.symm
      subst hbq
      have hd1 : hd.1 = compute_building_difficulty_dynamic bq r := by rw [← hhd]
      -- the scored pair of p is in the sorted list
      have hpmem : (compute_building_difficulty_dynamic bp r, p) ∈ scored :=
        List.mem_filterMap.mpr ⟨p, hp, by rw [hbp]; rfl⟩
      have hpsorted : (compute_building_difficulty_dynamic bp r, p) ∈ hd :: tl := by
        rw [← hsort]
        exact (List.perm_insertionSort diffLE scored).symm.mem_iff.mp hpmem
      rcases List.mem_cons.mp hpsorted with heqhd | htl
      · rw [hd1.symm, ← heqhd]
      · have hsorted : List.Sorted diffLE (hd :: tl) := by
          rw [← hsort]; exact List.sorted_insertionSort diffLE scored
        have := List.rel_of_sorted_cons hsorted _ htl
        rw [← hd1]
        exact this

/-- C1: whenever the per-tier loop performs a selection round (the freshly
recomputed sorted pool is `bid :: rest`), the loop continues by picking
`bid`, which is a pool member whose dynamic difficulty (with the current
global repaired set excluded) is minimal among all buildings of the pool. -/
theorem C1_min_difficulty_selection (st : SchedState) (pool : List String)
    (bid : String) (rest : List String) (b : Batiment)
    (hcs : current_sorted st.remaining st.repaired_ids pool = bid :: rest)
    (hfb : findBuilding st.remaining bid = some b) :
    bid ∈ pool ∧
    runPool st pool =
      runPoolFuel (pool.length - 1) (schedPick st bid b)
        (rest.filter (fun p => (findBuilding (schedPick st bid b).remaining p).isSome)) ∧
    ∀ p ∈ pool, ∀ bp, findBuilding st.remaining p = some bp →
      compute_building_difficulty_dynamic b st.repaired_ids ≤
        compute_building_difficulty_dynamic bp st.repaired_ids := by
  have hmin := current_sorted_head_min hcs hfb
  refine ⟨hmin.1, ?_, hmin.2⟩
  cases hpool : pool with
  | nil =>
    rw [hpool] at hmin
    exact absurd hmin.1 (List.not_mem_nil bid)
  | cons x xs =>
    rw [← hpool]
    rw [runPool]
    rw [hpool]
    simp only [List.length_cons, Nat.add_sub_cancel, runPoolFuel]
    rw [← hpool, hcs]
    simp only [hfb]

/-- A no-segment building used by concrete scheduler witnesses. -/
def wBatX : Batiment := { id_building := "X", type_batiment := "other", list_infras := [] }

/-- The segment of the witness building Y. -/
def wInfY : Infra :=
  { building_id := "Y", infra_id := "y1", longueur := 4, type_infra := "aerien", nb_houses := 1 }

/-- A one-segment building used by concrete scheduler witnesses. -/
def wBatY : Batiment :=
  { id_building := "Y", type_batiment := "other", list_infras := [wInfY] }

theorem wInfY_difficulty : wInfY.get_infra_difficulty = 4000 := by
  have hs : wInfY.infra_state ≠ "infra_intacte" := by decide
  have hp : wInfY.get_prix = 500 := by decide
  have hd : wInfY.get_duree = 2 := by decide
  rw [get_infra_difficulty_active _ hs, hp, hd]
  norm_num [wInfY]

/-- Concrete scheduler state holding `wBatX` and `wBatY`, nothing repaired. -/
def wState : SchedState :=
  { remaining := [wBatX, wBatY], repaired_ids := ∅, ordered := [],
    pick_cost := [], pick_metrics := [] }

/-- Witness for C1: on the pool `["Y", "X"]`, the sorted pool starts with the
zero-difficulty building X, the loop picks it, and its dynamic difficulty is
minimal. -/
theorem C1_min_difficulty_selection_witness :
    "X" ∈ (["Y", "X"] : List String) ∧
    runPool wState ["Y", "X"] =
      runPoolFuel ((["Y", "X"] : List String).length - 1) (schedPick wState "X" wBatX)
        ((["Y"] : List String).filter
          (fun p => (findBuilding (schedPick wState "X" wBatX).remaining p).isSome)) ∧
    ∀ p ∈ (["Y", "X"] : List String), ∀ bp, findBuilding wState.remaining p = some bp →
      compute_building_difficulty_dynamic wBatX wState.repaired_ids ≤
        compute_building_difficulty_dynamic bp wState.repaired_ids :=
  C1_min_difficulty_selection wState ["Y", "X"] "X" ["Y"] wBatX
    (by
      have h4000 : compute_building_difficulty_dynamic wBatY ∅ = 4000 := by
        simp [compute_building_difficulty_dynamic, wBatY, wInfY_difficulty]
      have h0 : compute_building_difficulty_dynamic wBatX ∅ = 0 := by
        simp [compute_building_difficulty_dynamic, wBatX]
      have hfX : findBuilding [wBatX, wBatY] "X" = some wBatX := by decide
      have hfY : findBuilding [wBatX, wBatY] "Y" = some wBatY := by decide
      have hscored : (["Y", "X"] : List String).filterMap
          (fun bid => (findBuilding [wBatX, wBatY] bid).map
            (fun b => (compute_building_difficulty_dynamic b ∅, bid))) =
          [((4000 : ℚ), "Y"), ((0 : ℚ), "X")] := by
        simp [List.filterMap_cons, hfX, hfY, h4000, h0]
      simp only [current_sorted, wState]
      rw [hscored]
      norm_num [List.insertionSort, List.orderedInsert, diffLE])
    (by decide)

/-! ## Tier-loop invariants used by the tier-precedence and output claims -/

theorem schedPick_remaining (st : SchedState) (bid : String) (b : Batiment) :
    (schedPick st bid b).remaining = st.remaining.filter (fun x => !(x.id_building == bid)) := rfl

theorem schedPick_ordered (st : SchedState) (bid : String) (b : Batiment) :
    (schedPick st bid b).ordered = st.ordered ++ [bid] := rfl

theorem runPoolFuel_ordered (f : ℕ) (st : SchedState) (pool : List String) :
    ∃ sel, (runPoolFuel f st pool).ordered = st.ordered ++ sel ∧ ∀ x ∈ sel, x ∈ pool := by
  induction f generalizing st pool with
  | zero => exact ⟨[], by simp [runPoolFuel], by simp⟩
  | succ n ih =>
    cases hcs : current_sorted st.remaining st.repaired_ids pool with
    | nil => exact ⟨[], by simp [runPoolFuel, hcs], by simp⟩
    | cons bid rest =>
      cases hfb : findBuilding st.remaining bid with
      | none => exact ⟨[], by simp [runPoolFuel, hcs, hfb], by simp⟩
      | some b =>
        obtain ⟨sel, hsel, hmem⟩ := ih (schedPick st bid b)
          (rest.filter (fun p => (findBuilding (schedPick st bid b).remaining p).isSome))
        refine ⟨bid :: sel, ?_, ?_⟩
        · simp only [runPoolFuel, hcs, hfb]
          rw [hsel, schedPick_ordered]
          simp
        · intro x hx
          rcases List.mem_cons.mp hx with rfl | hx'
          · exact (mem_current_sorted (show x ∈ current_sorted st.remaining st.repaired_ids pool
              from by rw [hcs]; exact List.mem_cons_self _ _)).1
          · have hxr : x ∈ rest := List.mem_of_mem_filter (hmem x hx')
            exact (mem_current_sorted (show x ∈ current_sorted st.remaining st.repaired_ids pool
              from by rw [hcs]; exact List.mem_cons_of_mem _ hxr)).1

theorem pool_split (st : SchedState) {pool : List String} {bid : String} {rest : List String}
    (hcs : current_sorted st.remaining st.repaired_ids pool = bid :: rest)
    {b : Batiment} (hfb : findBuilding st.remaining bid = some b)
    (hres : ∀ p ∈ pool, (findBuilding st.remaining p).isSome) :
    ∀ p ∈ pool, p = bid ∨
      p ∈ rest.filter (fun p => (findBuilding (schedPick st bid b).remaining p).isSome) := by
  intro p hp
  by_cases hpb : p = bid
  · exact Or.inl hpb
  · right
    have hpcs : p ∈ current_sorted st.remaining st.repaired_ids pool :=
      mem_current_sorted_of st.remaining st.repaired_ids hp (hres p hp)
    rw [hcs] at hpcs
    rcases List.mem_cons.mp hpcs with rfl | hprest
    · exact absurd rfl hpb
    · refine List.mem_filter.mpr ⟨hprest, ?_⟩
      rcases List.find?_isSome.mp (hres p hp) with ⟨x, hxmem, hxp⟩
      have hxid : x.id_building = p := by simpa using hxp
      refine List.find?_isSome.mpr ⟨x, ?_, hxp⟩
      rw [schedPick_remaining]
      refine List.mem_filter.mpr ⟨hxmem, ?_⟩
      simp [hxid, hpb]

theorem newPool_fuel {st : SchedState} {pool : List String} {bid : String} {rest : List String}
    (hcs : current_sorted st.remaining st.repaired_ids pool = bid :: rest)
    {n : ℕ} (hfuel : pool.length ≤ n + 1) (q : String → Bool) :
    (rest.filter q).length ≤ n := by
  have h1 := List.length_filter_le q rest
  have h2 := length_current_sorted_le st.remaining st.repaired_ids pool
  rw [hcs] at h2
  simp only [List.length_cons] at h2
  omega

theorem runPoolFuel_remaining (f : ℕ) (st : SchedState) (pool : List String)
    (hres : ∀ p ∈ pool, (findBuilding st.remaining p).isSome) (hfuel : pool.length ≤ f) :
    ∀ x, x ∈ (runPoolFuel f st pool).remaining ↔
      x ∈ st.remaining ∧ x.id_building ∉ pool := by
  induction f generalizing st pool with
  | zero =>
    have hp : pool = [] := List.length_eq_zero.mp (Nat.le_zero.mp hfuel)
    subst hp
    simp [runPoolFuel]
  | succ n ih =>
    cases hcs : current_sorted st.remaining st.repaired_ids pool with
    | nil =>
      cases hpool : pool with
      | nil => subst hpool; simp [runPoolFuel, hcs]
      | cons y ys =>
        exfalso
        subst hpool
        have hy := mem_current_sorted_of st.remaining st.repaired_ids
          (List.mem_cons_self y ys) (hres y (List.mem_cons_self y ys))
        rw [hcs] at hy
        exact List.not_mem_nil y hy
    | cons bid rest =>
      have hbidpool : bid ∈ pool :=
        (mem_current_sorted (show bid ∈ current_sorted st.remaining st.repaired_ids pool
          from by rw [hcs]; exact List.mem_cons_self _ _)).1
      cases hfb : findBuilding st.remaining bid with
      | none =>
        exfalso
        have := hres bid hbidpool
        rw [hfb] at this
        simp at this
      | some b =>
        simp only [runPoolFuel, hcs, hfb]
        intro x
        have hres' : ∀ p ∈ rest.filter
            (fun p => (findBuilding (schedPick st bid b).remaining p).isSome),
            (findBuilding (schedPick st bid b).remaining p).isSome :=
          fun p hp => (List.mem_filter.mp hp).2
        have hfuel' := newPool_fuel hcs hfuel
          (fun p => (findBuilding (schedPick st bid b).remaining p).isSome)
        rw [ih _ _ hres' hfuel']
        rw [schedPick_remaining]
        constructor
        · rintro ⟨hxf, hxnp⟩
          have hxmem := List.mem_filter.mp hxf
          have hxne : x.id_building ≠ bid := by
            have := hxmem.2
            simpa using this
          refine ⟨hxmem.1, ?_⟩
          intro hxpool
          rcases pool_split st hcs hfb hres x.id_building hxpool with heq | hnp
          · exact hxne heq
          · exact hxnp hnp
        · rintro ⟨hxmem, hxpool⟩
          have hxne : x.id_building ≠ bid := fun hc => hxpool (hc ▸ hbidpool)
          constructor
          · exact List.mem_filter.mpr ⟨hxmem, by simp [hxne]⟩
          · intro hxnp
            exact hxpool (List.mem_of_mem_filter hxnp |>
              fun hr => (mem_current_sorted (show x.id_building ∈
                current_sorted st.remaining st.repaired_ids pool
                from by rw [hcs]; exact List.mem_cons_of_mem _ hr)).1)

theorem runPoolFuel_complete (f : ℕ) (st : SchedState) (pool : List String)
    (hres : ∀ p ∈ pool, (findBuilding st.remaining p).isSome) (hfuel : pool.length ≤ f) :
    ∀ p ∈ pool, p ∈ (runPoolFuel f st pool).ordered := by
  induction f generalizing st pool with
  | zero =>
    have hp : pool = [] := List.length_eq_zero.mp (Nat.le_zero.mp hfuel)
    subst hp
    simp
  | succ n ih =>
    cases hcs : current_sorted st.remaining st.repaired_ids pool with
    | nil =>
      intro p hp
      exfalso
      have hpcs := mem_current_sorted_of st.remaining st.repaired_ids hp (hres p hp)
      rw [hcs] at hpcs
      exact List.not_mem_nil p hpcs
    | cons bid rest =>
      have hbidpool : bid ∈ pool :=
        (mem_current_sorted (show bid ∈ current_sorted st.remaining st.repaired_ids pool
          from by rw [hcs]; exact List.mem_cons_self _ _)).1
      cases hfb : findBuilding st.remaining bid with
      | none =>
        intro p hp
        exfalso
        have := hres bid hbidpool
        rw [hfb] at this
        simp at this
      | some b =>
        intro p hp
        simp only [runPoolFuel, hcs, hfb]
        have hres' : ∀ q ∈ rest.filter
            (fun q => (findBuilding (schedPick st bid b).remaining q).isSome),
            (findBuilding (schedPick st bid b).remaining q).isSome :=
          fun q hq => (List.mem_filter.mp hq).2
        have hfuel' := newPool_fuel hcs hfuel
          (fun q => (findBuilding (schedPick st bid b).remaining q).isSome)
        rcases pool_split st hcs hfb hres p hp with heq | hnp
        · obtain ⟨sel, hsel, -⟩ := runPoolFuel_ordered n (schedPick st bid b)
            (rest.filter (fun q => (findBuilding (schedPick st bid b).remaining q).isSome))
          rw [hsel, schedPick_ordered, heq]
          simp
        · exact ih _ _ hres' hfuel' p hnp

theorem runPoolFuel_run (f : ℕ) (st : SchedState) (pool : List String)
    (hres : ∀ p ∈ pool, (findBuilding st.remaining p).isSome) (hfuel : pool.length ≤ f) :
    ∃ sel, (runPoolFuel f st pool).ordered = st.ordered ++ sel ∧
      (∀ x ∈ sel, x ∈ pool) ∧ (∀ x ∈ pool, x ∈ sel) := by
  induction f generalizing st pool with
  | zero =>
    have hp : pool = [] := List.length_eq_zero.mp (Nat.le_zero.mp hfuel)
    subst hp
    exact ⟨[], by simp [runPoolFuel], by simp, by simp⟩
  | succ n ih =>
    cases hcs : current_sorted st.remaining st.repaired_ids pool with
    | nil =>
      cases hpool : pool with
      | nil =>
        subst hpool
        exact ⟨[], by simp [runPoolFuel, hcs], by simp, by simp⟩
      | cons y ys =>
        exfalso
        subst hpool
        have hy := mem_current_sorted_of st.remaining st.repaired_ids
          (List.mem_cons_self y ys) (hres y (List.mem_cons_self y ys))
        rw [hcs] at hy
        exact List.not_mem_nil y hy
    | cons bid rest =>
      have hbidpool : bid ∈ pool :=
        (mem_current_sorted (show bid ∈ current_sorted st.remaining st.repaired_ids pool
          from by rw [hcs]; exact List.mem_cons_self _ _)).1
      cases hfb : findBuilding st.remaining bid with
      | none =>
        exfalso
        have := hres bid hbidpool
        rw [hfb] at this
        simp at this
      | some b =>
        have hres' : ∀ q ∈ rest.filter
            (fun q => (findBuilding (schedPick st bid b).remaining q).isSome),
            (findBuilding (schedPick st bid b).remaining q).isSome :=
          fun q hq => (List.mem_filter.mp hq).2
        have hfuel' := newPool_fuel hcs hfuel
          (fun q => (findBuilding (schedPick st bid b).remaining q).isSome)
        obtain ⟨sel', hsel', hsub', hcompl'⟩ := ih (schedPick st bid b)
          (rest.filter (fun q => (findBuilding (schedPick st bid b).remaining q).isSome))
          hres' hfuel'
        refine ⟨bid :: sel', ?_, ?_, ?_⟩
        · simp only [runPoolFuel, hcs, hfb]
          rw [hsel', schedPick_ordered]
          simp
        · intro x hx
          rcases List.mem_cons.mp hx with rfl | hx'
          · exact hbidpool
          · have hxr : x ∈ rest := List.mem_of_mem_filter (hsub' x hx')
            exact (mem_current_sorted (show x ∈ current_sorted st.remaining st.repaired_ids pool
              from by rw [hcs]; exact List.mem_cons_of_mem _ hxr)).1
        · intro p hp
          rcases pool_split st hcs hfb hres p hp with heq | hnp
          · exact heq ▸ List.mem_cons_self _ _
          · exact List.mem_cons_of_mem _ (hcompl' p hnp)

/-- One whole tier of `select_order_with_repair`, under the assumption that
every pool id resolves in `remaining`: the loop appends exactly the pool's
ids to the order and removes exactly the pool's buildings from `remaining`. -/
theorem runPool_full_tier (st : SchedState) (grp : List String)
    (hres : ∀ p ∈ grp, (findBuilding st.remaining p).isSome) :
    ∃ sel, (runPool st grp).ordered = st.ordered ++ sel ∧
      (∀ x ∈ sel, x ∈ grp) ∧ (∀ x ∈ grp, x ∈ sel) ∧
      (∀ x, x ∈ (runPool st grp).remaining ↔ x ∈ st.remaining ∧ x.id_building ∉ grp) := by
  obtain ⟨sel, hsel, hsub, hcompl⟩ := runPoolFuel_run grp.length st grp hres (le_refl _)
  exact ⟨sel, hsel, hsub, hcompl,
    runPoolFuel_remaining grp.length st grp hres (le_refl _)⟩

theorem mem_ids_resolvable {bs : List Batiment} {x : String}
    (h : ∃ b ∈ bs, b.id_building = x) : (findBuilding bs x).isSome := by
  rcases h with ⟨b, hb, hid⟩
  exact List.find?_isSome.mpr ⟨b, hb, by simp [hid]⟩

/-- A tier whose whole group is resolvable selects exactly its group. -/
theorem runTier_full (st : SchedState) (grp : List String)
    (hres : ∀ p ∈ grp, (findBuilding st.remaining p).isSome) :
    ∃ sel, (runTier st grp).ordered = st.ordered ++ sel ∧
      (∀ x ∈ sel, x ∈ grp) ∧ (∀ x ∈ grp, x ∈ sel) ∧
      (∀ x, x ∈ (runTier st grp).remaining ↔ x ∈ st.remaining ∧ x.id_building ∉ grp) := by
  have hpool : tierPool st grp = grp := List.filter_eq_self.mpr hres
  rw [runTier, hpool]
  exact runPool_full_tier st grp hres

/-! ## C2: strict tier precedence of the scheduler's output order -/

/-- C2: with pairwise-distinct building ids, the order returned by
`select_order_with_repair` decomposes as the hospital ids, then the school
ids, then the remaining ids: every hospital precedes every school, and every
school precedes every building of any other category; the scheduler finishes
a tier completely before touching the next one. -/
theorem C2_tier_precedence (buildings : List Batiment)
    (hnodup : (buildings.map Batiment.id_building).Nodup)
    (_hhosp : ∃ b ∈ buildings, b.type_batiment = "hopital")
    (_hnon : ∃ b ∈ buildings, b.type_batiment ≠ "hopital") :
    ∃ A B C,
      (select_order_with_repair buildings).1 = A ++ B ++ C ∧
      (∀ x, x ∈ A ↔ ∃ b ∈ buildings, b.id_building = x ∧ b.type_batiment = "hopital") ∧
      (∀ x, x ∈ B ↔ ∃ b ∈ buildings, b.id_building = x ∧ b.type_batiment = "ecole") ∧
      (∀ x, x ∈ C ↔ ∃ b ∈ buildings, b.id_building = x ∧
        b.type_batiment ≠ "hopital" ∧ b.type_batiment ≠ "ecole") := by
  have hinj : ∀ b1 ∈ buildings, ∀ b2 ∈ buildings, b1.id_building = b2.id_building → b1 = b2 :=
    fun b1 h1 b2 h2 he => List.inj_on_of_nodup_map hnodup h1 h2 he
  have hmemH : ∀ x, x ∈ hospitalIds buildings ↔
      ∃ b ∈ buildings, b.id_building = x ∧ b.type_batiment = "hopital" := by
    intro x
    simp only [hospitalIds, List.mem_map, List.mem_filter, beq_iff_eq]
    constructor
    · rintro ⟨b, ⟨hb, ht⟩, hid⟩; exact ⟨b, hb, hid, ht⟩
    · rintro ⟨b, hb, hid, ht⟩; exact ⟨b, ⟨hb, ht⟩, hid⟩
  have hmemS : ∀ x, x ∈ schoolIds buildings ↔
      ∃ b ∈ buildings, b.id_building = x ∧ b.type_batiment = "ecole" := by
    intro x
    simp only [schoolIds, List.mem_map, List.mem_filter, beq_iff_eq]
    constructor
    · rintro ⟨b, ⟨hb, ht⟩, hid⟩; exact ⟨b, hb, hid, ht⟩
    · rintro ⟨b, hb, hid, ht⟩; exact ⟨b, ⟨hb, ht⟩, hid⟩
  have hmemO : ∀ x, x ∈ otherIds buildings ↔
      ∃ b ∈ buildings, b.id_building = x ∧
        b.type_batiment ≠ "hopital" ∧ b.type_batiment ≠ "ecole" := by
    intro x
    simp only [otherIds, List.mem_map, List.mem_filter, Bool.and_eq_true,
      Bool.not_eq_true', beq_eq_false_iff_ne]
    constructor
    · rintro ⟨b, ⟨hb, ht1, ht2⟩, hid⟩; exact ⟨b, hb, hid, ht1, ht2⟩
    · rintro ⟨b, hb, hid, ht1, ht2⟩; exact ⟨b, ⟨hb, ht1, ht2⟩, hid⟩
  -- tier 1: every hospital id resolves in the initial remaining list
  have hres1 : ∀ p ∈ hospitalIds buildings,
      (findBuilding (schedInit buildings).remaining p).isSome := by
    intro p hp
    rcases (hmemH p).mp hp with ⟨b, hb, hid, -⟩
    exact mem_ids_resolvable ⟨b, hb, hid⟩
  obtain ⟨selH, hordH, hsubH, hcomplH, hremH⟩ :=
    runTier_full (schedInit buildings) (hospitalIds buildings) hres1
  -- tier 2: every school id resolves after the hospital tier
  have hres2 : ∀ p ∈ schoolIds buildings,
      (findBuilding (runTier (schedInit buildings) (hospitalIds buildings)).remaining p).isSome := by
    intro p hp
    rcases (hmemS p).mp hp with ⟨b, hb, hid, ht⟩
    refine List.find?_isSome.mpr ⟨b, ?_, by simp [hid]⟩
    refine (hremH b).mpr ⟨hb, ?_⟩
    intro hbh
    rcases (hmemH b.id_building).mp hbh with ⟨b2, hb2, hid2, ht2⟩
    have : b2 = b := hinj b2 hb2 b hb hid2
    rw [this] at ht2
    rw [ht] at ht2
    exact absurd ht2 (by decide)
  obtain ⟨selS, hordS, hsubS, hcomplS, hremS⟩ :=
    runTier_full (runTier (schedInit buildings) (hospitalIds buildings))
      (schoolIds buildings) hres2
  -- tier 3: every other id resolves after the first two tiers
  have hres3 : ∀ p ∈ otherIds buildings,
      (findBuilding (runTier (runTier (schedInit buildings) (hospitalIds buildings))
        (schoolIds buildings)).remaining p).isSome := by
    intro p hp
    rcases (hmemO p).mp hp with ⟨b, hb, hid, ht1, ht2⟩
    refine List.find?_isSome.mpr ⟨b, ?_, by simp [hid]⟩
    refine (hremS b).mpr ⟨(hremH b).mpr ⟨hb, ?_⟩, ?_⟩
    · intro hbh
      rcases (hmemH b.id_building).mp hbh with ⟨b2, hb2, hid2, hty⟩
      have := hinj b2 hb2 b hb hid2
      rw [this] at hty
      exact ht1 hty
    · intro hbs
      rcases (hmemS b.id_building).mp hbs with ⟨b2, hb2, hid2, hty⟩
      have := hinj b2 hb2 b hb hid2
      rw [this] at hty
      exact ht2 hty
  obtain ⟨selO, hordO, hsubO, hcomplO, hremO⟩ :=
    runTier_full (runTier (runTier (schedInit buildings) (hospitalIds buildings))
      (schoolIds buildings)) (otherIds buildings) hres3
  -- after the three tiers nothing remains
  have hrem3 : (runTier (runTier (runTier (schedInit buildings) (hospitalIds buildings))
      (schoolIds buildings)) (otherIds buildings)).remaining = [] := by
    rw [List.eq_nil_iff_forall_not_mem]
    intro b hb
    have h3 := (hremO b).mp hb
    have h2 := (hremS b).mp h3.1
    have h1 := (hremH b).mp h2.1
    have hbmem : b ∈ buildings := h1.1
    by_cases hth : b.type_batiment = "hopital"
    · exact h1.2 ((hmemH b.id_building).mpr ⟨b, hbmem, rfl, hth⟩)
    · by_cases hts : b.type_batiment = "ecole"
      · exact h2.2 ((hmemS b.id_building).mpr ⟨b, hbmem, rfl, hts⟩)
      · exact h3.2 ((hmemO b.id_building).mpr ⟨b, hbmem, rfl, hth, hts⟩)
  refine ⟨selH, selS, selO, ?_, ?_, ?_, ?_⟩
  · simp only [select_order_with_repair]
    rw [hrem3, hordO, hordS, hordH]
    simp [schedInit, List.append_assoc]
  · intro x
    constructor
    · intro hx
      exact (hmemH x).mp (hsubH x hx)
    · intro hx
      exact hcomplH x ((hmemH x).mpr hx)
  · intro x
    constructor
    · intro hx
      exact (hmemS x).mp (hsubS x hx)
    · intro hx
      exact hcomplS x ((hmemS x).mpr hx)
  · intro x
    constructor
    · intro hx
      exact (hmemO x).mp (hsubO x hx)
    · intro hx
      exact hcomplO x ((hmemO x).mpr hx)

/-- A hospital building used by concrete scheduler witnesses. -/
def wBatH : Batiment := { id_building := "H", type_batiment := "hopital", list_infras := [] }

/-- Witness for C2: on the concrete input `[wBatH, wBatX]` the order splits
into the hospital tier, the (empty) school tier and the other tier. -/
theorem C2_tier_precedence_witness :
    ∃ A B C,
      (select_order_with_repair [wBatH, wBatX]).1 = A ++ B ++ C ∧
      (∀ x, x ∈ A ↔ ∃ b ∈ [wBatH, wBatX], b.id_building = x ∧ b.type_batiment = "hopital") ∧
      (∀ x, x ∈ B ↔ ∃ b ∈ [wBatH, wBatX], b.id_building = x ∧ b.type_batiment = "ecole") ∧
      (∀ x, x ∈ C ↔ ∃ b ∈ [wBatH, wBatX], b.id_building = x ∧
        b.type_batiment ≠ "hopital" ∧ b.type_batiment ≠ "ecole") :=
  C2_tier_precedence [wBatH, wBatX] (by decide)
    ⟨wBatH, by decide, by decide⟩ ⟨wBatX, by decide, by decide⟩

/-! ## Phase-assignment machinery shared by C6, C7 and C10 -/

/-- Specification form of the non-hospital record loop of `assign_phases`:
each building is paired with the phase of the cumulative cost accumulated
strictly before it. -/
def nhRecords (pick_cost : List (String × ℚ)) (t1 t2 t3 : ℚ) :
    ℚ → List String → List (String × ℤ)
  | _, [] => []
  | cum, bid :: rest =>
    (bid, phaseOf t1 t2 t3 cum) ::
      nhRecords pick_cost t1 t2 t3 (cum + (pick_cost.lookup bid).getD 0) rest

theorem nh_foldl_eq (pick_cost : List (String × ℚ)) (t1 t2 t3 : ℚ) (nh : List String)
    (cum : ℚ) (recs : List (String × ℤ)) :
    (nh.foldl
      (fun (acc : ℚ × List (String × ℤ)) bid =>
        (acc.1 + (pick_cost.lookup bid).getD 0,
         acc.2 ++ [(bid, phaseOf t1 t2 t3 acc.1)])) (cum, recs)).2 =
    recs ++ nhRecords pick_cost t1 t2 t3 cum nh := by
  induction nh generalizing cum recs with
  | nil => simp [nhRecords]
  | cons bid rest ih =>
    simp only [List.foldl_cons, nhRecords, ih]
    simp

theorem lookup_str_append {α : Type} (l1 l2 : List (String × α)) (k : String) :
    (l1 ++ l2).lookup k = ((l1.lookup k).orElse (fun _ => l2.lookup k)) := by
  induction l1 with
  | nil => simp [List.lookup]
  | cons hd tl ih =>
    simp only [List.cons_append, List.lookup]
    split <;> simp [ih]

theorem mem_of_lookup_str {α : Type} {l : List (String × α)} {k : String} {v : α}
    (h : l.lookup k = some v) : (k, v) ∈ l := by
  induction l with
  | nil => simp [List.lookup] at h
  | cons hd tl ih =>
    obtain ⟨k1, v1⟩ := hd
    simp only [List.lookup] at h
    cases hbeq : (k == k1) with
    | true =>
      rw [hbeq] at h
      simp only [Option.some.injEq] at h
      have hk : k = k1 := by simpa using hbeq
      rw [← hk, ← h]
      exact List.mem_cons_self _ _
    | false =>
      rw [hbeq] at h
      exact List.mem_cons_of_mem _ (ih h)

theorem dedupFirst_aux_mem (l : List (String × ℤ)) :
    ∀ (acc : List (String × ℤ) × Finset String) (x : String × ℤ),
      x ∈ (l.foldl
        (fun (acc : List (String × ℤ) × Finset String) p =>
          if p.1 ∈ acc.2 then acc else (acc.1 ++ [p], insert p.1 acc.2)) acc).1 →
      x ∈ acc.1 ∨ x ∈ l := by
  induction l with
  | nil => intro acc x hx; exact Or.inl hx
  | cons hd tl ih =>
    intro acc x hx
    simp only [List.foldl_cons] at hx
    by_cases hmem : hd.1 ∈ acc.2
    · rw [if_pos hmem] at hx
      rcases ih acc x hx with h | h
      · exact Or.inl h
      · exact Or.inr (List.mem_cons_of_mem _ h)
    · rw [if_neg hmem] at hx
      rcases ih _ x hx with h | h
      · rcases List.mem_append.mp h with h' | h'
        · exact Or.inl h'
        · simp only [List.mem_singleton] at h'
          exact Or.inr (h' ▸ List.mem_cons_self _ _)
      · exact Or.inr (List.mem_cons_of_mem _ h)

theorem dedupFirst_sub {l : List (String × ℤ)} {x : String × ℤ}
    (hx : x ∈ dedupFirst l) : x ∈ l := by
  rcases dedupFirst_aux_mem l ([], ∅) x hx with h | h
  · exact absurd h (List.not_mem_nil x)
  · exact h

theorem dedupFirst_aux_lookup (l : List (String × ℤ)) (k : String) :
    ∀ (acc : List (String × ℤ) × Finset String),
      (∀ q, q ∈ acc.2 ↔ (acc.1.lookup q).isSome) →
      ((l.foldl
        (fun (acc : List (String × ℤ) × Finset String) p =>
          if p.1 ∈ acc.2 then acc else (acc.1 ++ [p], insert p.1 acc.2)) acc).1).lookup k =
      ((acc.1.lookup k).orElse (fun _ => l.lookup k)) := by
  induction l with
  | nil =>
    intro acc _
    simp only [List.foldl_nil, List.lookup]
    cases acc.1.lookup k <;> simp [Option.orElse]
  | cons hd tl ih =>
    intro acc hinv
    obtain ⟨k1, v1⟩ := hd
    simp only [List.foldl_cons]
    by_cases hmem : k1 ∈ acc.2
    · rw [if_pos hmem]
      rw [ih acc hinv]
      have hsome : (acc.1.lookup k1).isSome := (hinv k1).mp hmem
      by_cases hk : k = k1
      · subst hk
        rcases Option.isSome_iff_exists.mp hsome with ⟨v, hv⟩
        rw [hv]
        simp only [List.lookup, beq_self_eq_true, Option.orElse]
      · simp only [List.lookup, show (k == k1) = false from beq_eq_false_iff_ne.mpr hk]
    · rw [if_neg hmem]
      have hinv' : ∀ q, q ∈ (insert k1 acc.2 : Finset String) ↔
          (((acc.1 ++ [(k1, v1)]).lookup q).isSome) := by
        intro q
        rw [lookup_str_append, Finset.mem_insert]
        by_cases hq : q = k1
        · subst hq
          simp only [List.lookup, beq_self_eq_true]
          cases hlq : acc.1.lookup q <;> simp [Option.orElse]
        · simp only [List.lookup, show (q == k1) = false from beq_eq_false_iff_ne.mpr hq]
          rw [hinv q]
          cases hlq : acc.1.lookup q <;> simp [Option.orElse, hq]
      rw [ih _ hinv']
      rw [lookup_str_append]
      by_cases hk : k = k1
      · subst hk
        have hnone : acc.1.lookup k = none := by
          cases hlq : acc.1.lookup k with
          | none => rfl
          | some v =>
            exfalso
            exact hmem ((hinv k).mpr (by rw [hlq]; rfl))
        rw [hnone]
        simp only [List.lookup, beq_self_eq_true, Option.orElse, Option.none_orElse]
      · simp only [List.lookup, show (k == k1) = false from beq_eq_false_iff_ne.mpr hk]
        cases hlq : acc.1.lookup k <;> simp [Option.orElse]

theorem dedupFirst_lookup (l : List (String × ℤ)) (k : String) :
    (dedupFirst l).lookup k = l.lookup k := by
  rw [dedupFirst, dedupFirst_aux_lookup l k ([], ∅) (by intro q; simp [List.lookup])]
  simp [List.lookup, Option.orElse]

/-- `assign_phases` written with the record loop in specification form. -/
theorem assign_phases_eq (order : List String) (buildings : List Batiment)
    (pick_cost : List (String × ℚ)) :
    assign_phases order buildings pick_cost =
      dedupFirst
        ((order.filter (fun bid => isHospitalIn buildings bid)).map
          (fun bid => (bid, (0 : ℤ))) ++
         nhRecords pick_cost
           ((0.40 : ℚ) * ((order.filter (fun bid => !(isHospitalIn buildings bid))).map
              (fun bid => (pick_cost.lookup bid).getD 0)).sum)
           ((0.40 : ℚ) * ((order.filter (fun bid => !(isHospitalIn buildings bid))).map
              (fun bid => (pick_cost.lookup bid).getD 0)).sum +
            (0.20 : ℚ) * ((order.filter (fun bid => !(isHospitalIn buildings bid))).map
              (fun bid => (pick_cost.lookup bid).getD 0)).sum)
           ((0.40 : ℚ) * ((order.filter (fun bid => !(isHospitalIn buildings bid))).map
              (fun bid => (pick_cost.lookup bid).getD 0)).sum +
            (0.20 : ℚ) * ((order.filter (fun bid => !(isHospitalIn buildings bid))).map
              (fun bid => (pick_cost.lookup bid).getD 0)).sum +
            (0.20 : ℚ) * ((order.filter (fun bid => !(isHospitalIn buildings bid))).map
              (fun bid => (pick_cost.lookup bid).getD 0)).sum)
           0 (order.filter (fun bid => !(isHospitalIn buildings bid)))) := by
  simp only [assign_phases]
  rw [nh_foldl_eq]
  simp

theorem lookup_pair0_of_not_mem {hs : List String} {x : String} (hx : x ∉ hs) :
    ((hs.map (fun bid => (bid, (0 : ℤ)))).lookup x) = none := by
  induction hs with
  | nil => simp [List.lookup]
  | cons hd tl ih =>
    simp only [List.map_cons, List.lookup]
    have hne : x ≠ hd := fun hc => hx (hc ▸ List.mem_cons_self _ _)
    rw [show (x == hd) = false from beq_eq_false_iff_ne.mpr hne]
    exact ih (fun hc => hx (List.mem_cons_of_mem _ hc))

theorem lookup_pair0_of_mem {hs : List String} {x : String} (hx : x ∈ hs) :
    ((hs.map (fun bid => (bid, (0 : ℤ)))).lookup x) = some 0 := by
  induction hs with
  | nil => exact absurd hx (List.not_mem_nil x)
  | cons hd tl ih =>
    simp only [List.map_cons, List.lookup]
    by_cases hxe : x = hd
    · rw [show (x == hd) = true from beq_iff_eq.mpr hxe]
    · rw [show (x == hd) = false from beq_eq_false_iff_ne.mpr hxe]
      exact ih (List.mem_cons.mp hx |>.resolve_left hxe)

theorem nhRecords_lookup (pc : List (String × ℚ)) (t1 t2 t3 : ℚ) (nh : List String)
    (hnodup : nh.Nodup) (cum : ℚ) (k : ℕ) (hk : k < nh.length) :
    (nhRecords pc t1 t2 t3 cum nh).lookup (nh.get ⟨k, hk⟩) =
      some (phaseOf t1 t2 t3
        (cum + ((nh.take k).map (fun bid => (pc.lookup bid).getD 0)).sum)) := by
  induction nh generalizing cum k with
  | nil => simp at hk
  | cons bid rest ih =>
    cases k with
    | zero =>
      simp [nhRecords, List.lookup]
    | succ k' =>
      have hk' : k' < rest.length := by simpa using hk
      have hget : (bid :: rest).get ⟨k' + 1, hk⟩ = rest.get ⟨k', hk'⟩ := rfl
      rw [hget]
      have hne : rest.get ⟨k', hk'⟩ ≠ bid := by
        intro hc
        exact (List.nodup_cons.mp hnodup).1 (hc ▸ rest.get_mem k' hk')
      simp only [nhRecords, List.lookup,
        show (rest.get ⟨k', hk'⟩ == bid) = false from beq_eq_false_iff_ne.mpr hne]
      rw [ih (List.nodup_cons.mp hnodup).2 (cum + (pc.lookup bid).getD 0) k' hk']
      congr 2
      simp [List.take_cons, List.sum_cons]
      ring

theorem nhRecords_mem {pc : List (String × ℚ)} {t1 t2 t3 : ℚ} {nh : List String}
    {cum : ℚ} {pr : String × ℤ} (h : pr ∈ nhRecords pc t1 t2 t3 cum nh) :
    pr.1 ∈ nh ∧ ∃ c : ℚ, pr.2 = phaseOf t1 t2 t3 c := by
  induction nh generalizing cum with
  | nil => simp [nhRecords] at h
  | cons bid rest ih =>
    simp only [nhRecords, List.mem_cons] at h
    rcases h with rfl | h'
    · exact ⟨List.mem_cons_self _ _, cum, rfl⟩
    · have := ih h'
      exact ⟨List.mem_cons_of_mem _ this.1, this.2⟩

theorem phaseOf_pos (t1 t2 t3 cum : ℚ) : 1 ≤ phaseOf t1 t2 t3 cum := by
  unfold phaseOf
  split_ifs <;> norm_num

/-! ## C6: threshold bucketing of the non-hospital buildings -/

/-- C6: with duplicate-free order, the k-th non-hospital building of the
order receives phase 1, 2, 3 or 4 according to whether the cumulative
selection-time difficulty strictly before it is below 40%, 60%, 80% of the
total non-hospital difficulty, or none of these. -/
theorem C6_phase_bucketing (order : List String) (buildings : List Batiment)
    (pick_cost : List (String × ℚ)) (hnodup : order.Nodup) (k : ℕ)
    (hk : k < (order.filter (fun bid => !(isHospitalIn buildings bid))).length) :
    (assign_phases order buildings pick_cost).lookup
        ((order.filter (fun bid => !(isHospitalIn buildings bid))).get ⟨k, hk⟩) =
      some
        (if (((order.filter (fun bid => !(isHospitalIn buildings bid))).take k).map
              (fun bid => (pick_cost.lookup bid).getD 0)).sum <
            (0.40 : ℚ) * ((order.filter (fun bid => !(isHospitalIn buildings bid))).map
              (fun bid => (pick_cost.lookup bid).getD 0)).sum then 1
         else if (((order.filter (fun bid => !(isHospitalIn buildings bid))).take k).map
              (fun bid => (pick_cost.lookup bid).getD 0)).sum <
            (0.60 : ℚ) * ((order.filter (fun bid => !(isHospitalIn buildings bid))).map
              (fun bid => (pick_cost.lookup bid).getD 0)).sum then 2
         else if (((order.filter (fun bid => !(isHospitalIn buildings bid))).take k).map
              (fun bid => (pick_cost.lookup bid).getD 0)).sum <
            (0.80 : ℚ) * ((order.filter (fun bid => !(isHospitalIn buildings bid))).map
              (fun bid => (pick_cost.lookup bid).getD 0)).sum then 3
         else 4) := by
  rw [assign_phases_eq, dedupFirst_lookup, lookup_str_append]
  have hmemnh : (order.filter (fun bid => !(isHospitalIn buildings bid))).get ⟨k, hk⟩ ∈
      order.filter (fun bid => !(isHospitalIn buildings bid)) :=
    (order.filter (fun bid => !(isHospitalIn buildings bid))).get_mem k hk
  have hnot : isHospitalIn buildings
      ((order.filter (fun bid => !(isHospitalIn buildings bid))).get ⟨k, hk⟩) = false := by
    have := (List.mem_filter.mp hmemnh).2
    simpa using this
  have hnotin : (order.filter (fun bid => !(isHospitalIn buildings bid))).get ⟨k, hk⟩ ∉
      order.filter (fun bid => isHospitalIn buildings bid) := by
    intro hc
    have := (List.mem_filter.mp hc).2
    rw [hnot] at this
    simp at this
  rw [lookup_pair0_of_not_mem hnotin]
  rw [nhRecords_lookup pick_cost _ _ _ _ (hnodup.filter _) 0 k hk]
  simp only [Option.orElse, zero_add]
  congr 1
  unfold phaseOf
  have e2 : (0.40 : ℚ) * ((order.filter (fun bid => !(isHospitalIn buildings bid))).map
        (fun bid => (pick_cost.lookup bid).getD 0)).sum +
      (0.20 : ℚ) * ((order.filter (fun bid => !(isHospitalIn buildings bid))).map
        (fun bid => (pick_cost.lookup bid).getD 0)).sum =
      (0.60 : ℚ) * ((order.filter (fun bid => !(isHospitalIn buildings bid))).map
        (fun bid => (pick_cost.lookup bid).getD 0)).sum := by ring
  have e3 : (0.40 : ℚ) * ((order.filter (fun bid => !(isHospitalIn buildings bid))).map
        (fun bid => (pick_cost.lookup bid).getD 0)).sum +
      (0.20 : ℚ) * ((order.filter (fun bid => !(isHospitalIn buildings bid))).map
        (fun bid => (pick_cost.lookup bid).getD 0)).sum +
      (0.20 : ℚ) * ((order.filter (fun bid => !(isHospitalIn buildings bid))).map
        (fun bid => (pick_cost.lookup bid).getD 0)).sum =
      (0.80 : ℚ) * ((order.filter (fun bid => !(isHospitalIn buildings bid))).map
        (fun bid => (pick_cost.lookup bid).getD 0)).sum := by ring
  rw [e3, e2]

/-- A second no-segment non-hospital building for phase witnesses. -/
def wBatA : Batiment := { id_building := "a", type_batiment := "other", list_infras := [] }

/-- A third no-segment non-hospital building for phase witnesses. -/
def wBatB : Batiment := { id_building := "b", type_batiment := "other", list_infras := [] }

/-- Witness for C6: in `["H", "a", "b"]` with costs 10 and 30, the second
non-hospital building has prior cumulative cost 10 < 40% of 40, so phase 1. -/
theorem C6_phase_bucketing_witness :
    (assign_phases ["H", "a", "b"] [wBatH, wBatA, wBatB] [("a", 10), ("b", 30)]).lookup
        ((["H", "a", "b"].filter
          (fun bid => !(isHospitalIn [wBatH, wBatA, wBatB] bid))).get ⟨1, by decide⟩) =
      some
        (if (((["H", "a", "b"].filter
              (fun bid => !(isHospitalIn [wBatH, wBatA, wBatB] bid))).take 1).map
              (fun bid => (([("a", (10:ℚ)), ("b", 30)]).lookup bid).getD 0)).sum <
            (0.40 : ℚ) * ((["H", "a", "b"].filter
              (fun bid => !(isHospitalIn [wBatH, wBatA, wBatB] bid))).map
              (fun bid => (([("a", (10:ℚ)), ("b", 30)]).lookup bid).getD 0)).sum then 1
         else if (((["H", "a", "b"].filter
              (fun bid => !(isHospitalIn [wBatH, wBatA, wBatB] bid))).take 1).map
              (fun bid => (([("a", (10:ℚ)), ("b", 30)]).lookup bid).getD 0)).sum <
            (0.60 : ℚ) * ((["H", "a", "b"].filter
              (fun bid => !(isHospitalIn [wBatH, wBatA, wBatB] bid))).map
              (fun bid => (([("a", (10:ℚ)), ("b", 30)]).lookup bid).getD 0)).sum then 2
         else if (((["H", "a", "b"].filter
              (fun bid => !(isHospitalIn [wBatH, wBatA, wBatB] bid))).take 1).map
              (fun bid => (([("a", (10:ℚ)), ("b", 30)]).lookup bid).getD 0)).sum <
            (0.80 : ℚ) * ((["H", "a", "b"].filter
              (fun bid => !(isHospitalIn [wBatH, wBatA, wBatB] bid))).map
              (fun bid => (([("a", (10:ℚ)), ("b", 30)]).lookup bid).getD 0)).sum then 3
         else 4) :=
  C6_phase_bucketing ["H", "a", "b"] [wBatH, wBatA, wBatB] [("a", 10), ("b", 30)]
    (by decide) 1 (by decide)

/-! ## C7: phase 0 exactly for hospitals -/

/-- C7: a record of `assign_phases` has phase 0 exactly when its building's
category is hospital, and every hospital id of the order does receive a
phase-0 record. -/
theorem C7_phase0_iff_hospital (order : List String) (buildings : List Batiment)
    (pick_cost : List (String × ℚ)) :
    (∀ bid phase, (bid, phase) ∈ assign_phases order buildings pick_cost →
      (phase = 0 ↔ isHospitalIn buildings bid = true)) ∧
    (∀ bid ∈ order, isHospitalIn buildings bid = true →
      (bid, (0 : ℤ)) ∈ assign_phases order buildings pick_cost) := by
  constructor
  · intro bid phase hmem
    rw [assign_phases_eq] at hmem
    have hmem' := dedupFirst_sub hmem
    rcases List.mem_append.mp hmem' with hh | hn
    · rcases List.mem_map.mp hh with ⟨bid', hbid', heq⟩
      obtain ⟨h1, h2⟩ := Prod.mk.inj heq
      subst h1
      rw [← h2]
      have hh2 := (List.mem_filter.mp hbid').2
      simp [hh2]
    · obtain ⟨hmem_nh, c, hph⟩ := nhRecords_mem hn
      have hfalse : isHospitalIn buildings bid = false := by
        have := (List.mem_filter.mp hmem_nh).2
        simpa using this
      have hpos := phaseOf_pos
        ((0.40 : ℚ) * ((order.filter (fun bid => !(isHospitalIn buildings bid))).map
          (fun bid => (pick_cost.lookup bid).getD 0)).sum)
        ((0.40 : ℚ) * ((order.filter (fun bid => !(isHospitalIn buildings bid))).map
          (fun bid => (pick_cost.lookup bid).getD 0)).sum +
         (0.20 : ℚ) * ((order.filter (fun bid => !(isHospitalIn buildings bid))).map
          (fun bid => (pick_cost.lookup bid).getD 0)).sum)
        ((0.40 : ℚ) * ((order.filter (fun bid => !(isHospitalIn buildings bid))).map
          (fun bid => (pick_cost.lookup bid).getD 0)).sum +
         (0.20 : ℚ) * ((order.filter (fun bid => !(isHospitalIn buildings bid))).map
          (fun bid => (pick_cost.lookup bid).getD 0)).sum +
         (0.20 : ℚ) * ((order.filter (fun bid => !(isHospitalIn buildings bid))).map
          (fun bid => (pick_cost.lookup bid).getD 0)).sum) c
    -- `hph` pins the phase value above 0
      constructor
      · intro h0
        rw [h0] at hph
        omega
      · intro ht
        rw [hfalse] at ht
        simp at ht
  · intro bid hbid hhosp
    rw [assign_phases_eq]
    have hmemf : bid ∈ order.filter (fun bid => isHospitalIn buildings bid) :=
      List.mem_filter.mpr ⟨hbid, hhosp⟩
    apply mem_of_lookup_str
    rw [dedupFirst_lookup, lookup_str_append, lookup_pair0_of_mem hmemf]
    simp [Option.orElse]

/-- Witness for C7: the hospital `H` of the order `["H"]` gets phase 0. -/
theorem C7_phase0_iff_hospital_witness :
    ("H", (0 : ℤ)) ∈ assign_phases ["H"] [wBatH] [] :=
  (C7_phase0_iff_hospital ["H"] [wBatH] []).2 "H" (by decide) (by decide)

/-! ## C10: zero total non-hospital difficulty sends everything to phase 4 -/

theorem sum_nonneg_zero {l : List ℚ} (hpos : ∀ x ∈ l, 0 ≤ x) (hsum : l.sum = 0) :
    ∀ x ∈ l, x = 0 := by
  induction l with
  | nil => simp
  | cons h t ih =>
    have hh : 0 ≤ h := hpos h (List.mem_cons_self _ _)
    have ht : 0 ≤ t.sum := List.sum_nonneg (fun x hx => hpos x (List.mem_cons_of_mem _ hx))
    simp only [List.sum_cons] at hsum
    have hh0 : h = 0 := by linarith
    have hts : t.sum = 0 := by linarith
    intro x hx
    rcases List.mem_cons.mp hx with rfl | hx'
    · exact hh0
    · exact ih (fun y hy => hpos y (List.mem_cons_of_mem _ hy)) hts x hx'

theorem nhRecords_const {pc : List (String × ℚ)} {t1 t2 t3 : ℚ} {nh : List String} {cum : ℚ}
    (hzero : ∀ b ∈ nh, (pc.lookup b).getD 0 = 0) :
    ∀ pr ∈ nhRecords pc t1 t2 t3 cum nh, pr.2 = phaseOf t1 t2 t3 cum := by
  induction nh generalizing cum with
  | nil => simp [nhRecords]
  | cons b rest ih =>
    intro pr hpr
    simp only [nhRecords, List.mem_cons] at hpr
    rcases hpr with rfl | h'
    · rfl
    · have hz : (pc.lookup b).getD 0 = 0 := hzero b (List.mem_cons_self _ _)
      rw [hz, add_zero] at h'
      exact ih (fun y hy => hzero y (List.mem_cons_of_mem _ hy)) pr h'

/-- C10: when the selection-time difficulties are non-negative (as produced
by the scheduler) and their total over the non-hospital part of the order is
0, every non-hospital record of `assign_phases` carries phase 4 — the three
thresholds collapse to 0 and `cum < 0` is false at `cum = 0`. -/
theorem C10_zero_total_phase4 (order : List String) (buildings : List Batiment)
    (pick_cost : List (String × ℚ))
    (hpos : ∀ p ∈ pick_cost, 0 ≤ p.2)
    (htot : ((order.filter (fun bid => !(isHospitalIn buildings bid))).map
        (fun bid => (pick_cost.lookup bid).getD 0)).sum = 0) :
    ∀ bid phase, (bid, phase) ∈ assign_phases order buildings pick_cost →
      isHospitalIn buildings bid = false → phase = 4 := by
  intro bid phase hmem hfalse
  rw [assign_phases_eq] at hmem
  have hmem' := dedupFirst_sub hmem
  rcases List.mem_append.mp hmem' with hh | hn
  · exfalso
    rcases List.mem_map.mp hh with ⟨bid', hbid', heq⟩
    obtain ⟨h1, -⟩ := Prod.mk.inj heq
    subst h1
    have := (List.mem_filter.mp hbid').2
    rw [hfalse] at this
    simp at this
  · have hcost_nonneg : ∀ x ∈ (order.filter (fun bid => !(isHospitalIn buildings bid))).map
        (fun bid => (pick_cost.lookup bid).getD 0), 0 ≤ x := by
      intro x hx
      rcases List.mem_map.mp hx with ⟨b, -, rfl⟩
      cases hl : pick_cost.lookup b with
      | none => simp
      | some v =>
        have := hpos (b, v) (mem_of_lookup_str hl)
        simpa [hl] using this
    have hall := sum_nonneg_zero hcost_nonneg htot
    have hzero : ∀ b ∈ order.filter (fun bid => !(isHospitalIn buildings bid)),
        (pick_cost.lookup b).getD 0 = 0 :=
      fun b hb => hall _ (List.mem_map_of_mem _ hb)
    rw [htot] at hn
    have h2 : phase = phaseOf ((0.40 : ℚ) * 0) ((0.40 : ℚ) * 0 + (0.20 : ℚ) * 0)
        ((0.40 : ℚ) * 0 + (0.20 : ℚ) * 0 + (0.20 : ℚ) * 0) 0 :=
      nhRecords_const hzero (bid, phase) hn
    rw [h2]
    norm_num [phaseOf]

/-- Witness for C10: with an empty difficulty map (total 0) the single
non-hospital building of the order is in phase 4. -/
theorem C10_zero_total_phase4_witness :
    (("X", (4 : ℤ)) ∈ assign_phases ["X"] [wBatX] []) ∧ (4 : ℤ) = 4 :=
  have hmem : ("X", (4 : ℤ)) ∈ assign_phases ["X"] [wBatX] [] := by
    rw [assign_phases_eq]
    apply mem_of_lookup_str
    rw [dedupFirst_lookup, lookup_str_append]
    have h1 : (["X"].filter (fun bid => isHospitalIn [wBatX] bid)) = [] := by decide
    have h2 : (["X"].filter (fun bid => !(isHospitalIn [wBatX] bid))) = ["X"] := by decide
    rw [h1, h2]
    simp only [List.map_nil, List.lookup, Option.orElse, nhRecords, beq_self_eq_true]
    norm_num [phaseOf, List.lookup]
  ⟨hmem, C10_zero_total_phase4 ["X"] [wBatX] [] (by simp)
    (by norm_num [isHospitalIn, id_to_b, findBuilding, wBatX, List.find?, List.filter,
      List.lookup])
    "X" 4 hmem (by decide)⟩

/-! ## C8: buildings with no segments -/

theorem runPoolFuel_remaining_subset (f : ℕ) (st : SchedState) (pool : List String) :
    ∀ x ∈ (runPoolFuel f st pool).remaining, x ∈ st.remaining := by
  induction f generalizing st pool with
  | zero => intro x hx; simpa [runPoolFuel] using hx
  | succ n ih =>
    cases hcs : current_sorted st.remaining st.repaired_ids pool with
    | nil => intro x hx; simpa [runPoolFuel, hcs] using hx
    | cons bid rest =>
      cases hfb : findBuilding st.remaining bid with
      | none => intro x hx; simpa [runPoolFuel, hcs, hfb] using hx
      | some b =>
        intro x hx
        simp only [runPoolFuel, hcs, hfb] at hx
        have := ih _ _ x hx
        rw [schedPick_remaining] at this
        exact List.mem_of_mem_filter this

theorem tier_group_ids_sub (buildings : List Batiment) :
    ∀ x, (x ∈ hospitalIds buildings ∨ x ∈ schoolIds buildings ∨ x ∈ otherIds buildings) →
      ∃ b ∈ buildings, b.id_building = x := by
  intro x hx
  rcases hx with h | h | h
  · rcases List.mem_map.mp h with ⟨b, hb, hid⟩
    exact ⟨b, List.mem_of_mem_filter hb, hid⟩
  · rcases List.mem_map.mp h with ⟨b, hb, hid⟩
    exact ⟨b, List.mem_of_mem_filter hb, hid⟩
  · rcases List.mem_map.mp h with ⟨b, hb, hid⟩
    exact ⟨b, List.mem_of_mem_filter hb, hid⟩

/-- Every id in the scheduler's output order is the id of an input building. -/
theorem select_order_ids_sub (bs : List Batiment) :
    ∀ x ∈ (select_order_with_repair bs).1, ∃ b ∈ bs, b.id_building = x := by
  intro x hx
  simp only [select_order_with_repair] at hx
  rcases List.mem_append.mp hx with hord | hrem
  · -- x was selected by one of the three tiers
    obtain ⟨sel3, hsel3, hsub3⟩ := runPoolFuel_ordered _ _ _
    rw [runTier, runPool] at hord
    rw [hsel3] at hord
    rcases List.mem_append.mp hord with hord2 | hx3
    · obtain ⟨sel2, hsel2, hsub2⟩ := runPoolFuel_ordered _ _ _
      rw [runTier, runPool] at hord2
      rw [hsel2] at hord2
      rcases List.mem_append.mp hord2 with hord1 | hx2
      · obtain ⟨sel1, hsel1, hsub1⟩ := runPoolFuel_ordered _ _ _
        rw [runTier, runPool] at hord1
        rw [hsel1] at hord1
        rcases List.mem_append.mp hord1 with hord0 | hx1
        · simp [schedInit] at hord0
        · have := hsub1 x hx1
          exact tier_group_ids_sub bs x (Or.inl (List.mem_of_mem_filter this))
      · have := hsub2 x hx2
        exact tier_group_ids_sub bs x (Or.inr (Or.inl (List.mem_of_mem_filter this)))
    · have := hsub3 x hx3
      exact tier_group_ids_sub bs x (Or.inr (Or.inr (List.mem_of_mem_filter this)))
  · -- x is the id of a leftover remaining building
    rcases List.mem_map.mp hrem with ⟨b, hb, hid⟩
    have h3 := runPoolFuel_remaining_subset _ _ _ b hb
    rw [runTier, runPool] at h3  -- not applicable directly; handled below
    have h2 := runPoolFuel_remaining_subset _ _ _ b h3
    have h1 := runPoolFuel_remaining_subset _ _ _ b h2
    exact ⟨b, h1, hid⟩

/-- Every record key of `assign_phases` comes from the order. -/
theorem assign_phases_keys_sub (order : List String) (buildings : List Batiment)
    (pick_cost : List (String × ℚ)) :
    ∀ pr ∈ assign_phases order buildings pick_cost, pr.1 ∈ order := by
  intro pr hpr
  rw [assign_phases_eq] at hpr
  have hpr' := dedupFirst_sub hpr
  rcases List.mem_append.mp hpr' with hh | hn
  · rcases List.mem_map.mp hh with ⟨bid, hbid, heq⟩
    rw [← heq]
    exact List.mem_of_mem_filter hbid
  · exact List.mem_of_mem_filter (nhRecords_mem hn).1

/-- Every row of the final plan carries the id of a building that entered
the ordering pass (a building with at least one segment). -/
theorem mainPlan_ids_sub (buildings : List Batiment) :
    ∀ row ∈ mainPlan buildings,
      ∃ b ∈ buildings.filter (fun x => 0 < x.list_infras.length),
        b.id_building = row.id_batiments := by
  intro row hrow
  simp only [mainPlan] at hrow
  rcases List.mem_filterMap.mp hrow with ⟨rec, hrec, heq⟩
  cases hfind : id_to_b buildings rec.1 with
  | none => rw [hfind] at heq; simp at heq
  | some b =>
    rw [hfind] at heq
    simp only [Option.map_some', Option.some.injEq] at heq
    have hid : row.id_batiments = rec.1 := by rw [← heq]
    have hkey := assign_phases_keys_sub _ _ _ rec hrec
    rw [hid]
    exact select_order_ids_sub _ rec.1 hkey

/-- The segment of the hospital used by the C8 counterexample. -/
def wInfH : Infra :=
  { building_id := "H", infra_id := "h1", longueur := 10, type_infra := "aerien", nb_houses := 1 }

/-- A hospital with one segment, used by the C8 counterexample. -/
def wBatHI : Batiment :=
  { id_building := "H", type_batiment := "hopital", list_infras := [wInfH] }

/-- Counterexample for C8: the building `X` has no segments at all, yet the
final plan of `main` on `[wBatHI, wBatX]` contains only the hospital row —
`X` does not appear in the output as claimed. -/
theorem C8_counterexample_no_segment_row :
    wBatX.list_infras = [] ∧
    (mainPlan [wBatHI, wBatX]).map PlanRow.id_batiments = ["H"] ∧
    "X" ∉ (mainPlan [wBatHI, wBatX]).map PlanRow.id_batiments := by
  have heval : (mainPlan [wBatHI, wBatX]).map PlanRow.id_batiments = ["H"] := by
    norm_num [mainPlan, select_order_with_repair, runTier, tierPool, runPool, runPoolFuel,
      current_sorted, findBuilding, schedPick, schedInit, hospitalIds, schoolIds, otherIds,
      compute_building_difficulty_dynamic, Infra.get_infra_difficulty,
      Infra.get_prix, Infra.get_duree, normalize_infra_key, trimChars, lowerChar,
      INFRA_PRICE_MAPPING, INFRA_DURATION_MAPPING, List.lookup, List.insertionSort,
      List.orderedInsert, diffLE, wBatHI, wInfH, wBatX, List.filter, List.filterMap,
      List.find?, assign_phases, isHospitalIn, id_to_b, dedupFirst, phaseOf,
      compute_building_cost_and_duration]
  refine ⟨rfl, heval, ?_⟩
  rw [heval]
  simp

/-- C8 as amended: a building with no segments has difficulty 0 and
cost/duration/workforce 0 and is excluded from the ordering pass, but —
contrary to the original claim — it does not appear in the final phase
output at all. -/
theorem C8_amended_no_segment_building (buildings : List Batiment) (b : Batiment)
    (hb : b ∈ buildings) (hempty : b.list_infras = [])
    (hnodup : (buildings.map Batiment.id_building).Nodup) :
    b.get_building_difficulty = 0 ∧
    compute_building_cost_and_duration b 4 =
      { cost_eur := 0, duration_h := 0, workers_total := 0 } ∧
    b.id_building ∉
      (select_order_with_repair (buildings.filter (fun x => 0 < x.list_infras.length))).1 ∧
    ∀ row ∈ mainPlan buildings, row.id_batiments ≠ b.id_building := by
  have hinj : ∀ b1 ∈ buildings, ∀ b2 ∈ buildings, b1.id_building = b2.id_building → b1 = b2 :=
    fun b1 h1 b2 h2 he => List.inj_on_of_nodup_map hnodup h1 h2 he
  have hnotin : ∀ b2 ∈ buildings.filter (fun x => 0 < x.list_infras.length),
      b2.id_building ≠ b.id_building := by
    intro b2 hb2 hc
    have hb2m := List.mem_filter.mp hb2
    have : b2 = b := hinj b2 hb2m.1 b hb hc
    rw [this] at hb2m
    have := hb2m.2
    rw [hempty] at this
    simp at this
  refine ⟨?_, ?_, ?_, ?_⟩
  · simp [Batiment.get_building_difficulty, hempty]
  · simp [compute_building_cost_and_duration, hempty]
  · intro hc
    rcases select_order_ids_sub _ _ hc with ⟨b2, hb2, hid⟩
    exact hnotin b2 hb2 hid
  · intro row hrow hc
    rcases mainPlan_ids_sub buildings row hrow with ⟨b2, hb2, hid⟩
    exact hnotin b2 hb2 (hid.trans hc)

/-- Witness for the amended C8: the no-segment building `X` of the
counterexample input indeed has zero metrics, is not ordered, and is absent
from the plan. -/
theorem C8_amended_no_segment_building_witness :
    wBatX.get_building_difficulty = 0 ∧
    compute_building_cost_and_duration wBatX 4 =
      { cost_eur := 0, duration_h := 0, workers_total := 0 } ∧
    wBatX.id_building ∉
      (select_order_with_repair
        (([wBatHI, wBatX]).filter (fun x => 0 < x.list_infras.length))).1 ∧
    ∀ row ∈ mainPlan [wBatHI, wBatX], row.id_batiments ≠ wBatX.id_building :=
  C8_amended_no_segment_building [wBatHI, wBatX] wBatX (by decide) rfl (by decide)

/-! ## C9: global first-seen-wins dedup of segment ids -/

/-- All infras stored in the buckets of a grouping accumulator. -/
def flatInfras (g : List (String × List Infra)) : List Infra := (g.map Prod.snd).flatten

theorem mem_flatInfras {g : List (String × List Infra)} {i : Infra} :
    i ∈ flatInfras g ↔ ∃ p ∈ g, i ∈ p.2 := by
  simp only [flatInfras, List.mem_flatten, List.mem_map]
  constructor
  · rintro ⟨s, ⟨p, hp, rfl⟩, hi⟩
    exact ⟨p, hp, hi⟩
  · rintro ⟨p, hp, hi⟩
    exact ⟨p.2, ⟨p, hp, rfl⟩, hi⟩

theorem appendToGroup_flat_perm (g : List (String × List Infra)) (bid : String) (i : Infra) :
    List.Perm (flatInfras (appendToGroup g bid i)) (i :: flatInfras g) := by
  induction g with
  | nil => simp [appendToGroup, flatInfras]
  | cons hd tl ih =>
    obtain ⟨k, l⟩ := hd
    by_cases hk : k = bid
    · simp only [appendToGroup, if_pos hk, flatInfras, List.map_cons, List.flatten_cons]
      exact (List.perm_append_singleton i l).append_right _
    · simp only [appendToGroup, if_neg hk, flatInfras, List.map_cons, List.flatten_cons]
      exact (List.Perm.append_left l ih).trans List.perm_middle

theorem appendToGroup_keys (g : List (String × List Infra)) (bid : String) (i : Infra) :
    (appendToGroup g bid i).map Prod.fst = g.map Prod.fst ∨
    ((appendToGroup g bid i).map Prod.fst = g.map Prod.fst ++ [bid] ∧
      bid ∉ g.map Prod.fst) := by
  induction g with
  | nil => simp [appendToGroup]
  | cons hd tl ih =>
    obtain ⟨k, l⟩ := hd
    by_cases hk : k = bid
    · left
      simp [appendToGroup, if_pos hk]
    · rcases ih with h | ⟨h, hnot⟩
      · left
        simp [appendToGroup, if_neg hk, h]
      · right
        constructor
        · simp [appendToGroup, if_neg hk, h]
        · intro hc
          simp only [List.map_cons, List.mem_cons] at hc
          rcases hc with hc' | hc'
          · exact hk hc'.symm
          · exact hnot hc'

theorem appendToGroup_keys_nodup {g : List (String × List Infra)} {bid : String} {i : Infra}
    (h : (g.map Prod.fst).Nodup) : ((appendToGroup g bid i).map Prod.fst).Nodup := by
  rcases appendToGroup_keys g bid i with heq | ⟨heq, hnot⟩
  · rw [heq]; exact h
  · rw [heq]
    simp [List.nodup_append, h, hnot]

theorem appendToGroup_fields {g : List (String × List Infra)} {bid : String} {i : Infra}
    (h : ∀ p ∈ g, ∀ j ∈ p.2, j.building_id = p.1) (hi : i.building_id = bid) :
    ∀ p ∈ appendToGroup g bid i, ∀ j ∈ p.2, j.building_id = p.1 := by
  induction g with
  | nil =>
    intro p hp j hj
    simp only [appendToGroup, List.mem_singleton] at hp
    subst hp
    simp only [List.mem_singleton] at hj
    subst hj
    exact hi
  | cons hd tl ih =>
    obtain ⟨k, l⟩ := hd
    by_cases hk : k = bid
    · intro p hp j hj
      simp only [appendToGroup, if_pos hk, List.mem_cons] at hp
      rcases hp with rfl | hp'
      · simp only at hj
        rcases List.mem_append.mp hj with hj' | hj'
        · exact h (k, l) (List.mem_cons_self _ _) j hj'
        · simp only [List.mem_singleton] at hj'
          subst hj'
          rw [hi, hk]
      · exact h p (List.mem_cons_of_mem _ hp') j hj
    · intro p hp j hj
      simp only [appendToGroup, if_neg hk, List.mem_cons] at hp
      rcases hp with rfl | hp'
      · exact h (k, l) (List.mem_cons_self _ _) j hj
      · exact ih (fun q hq => h q (List.mem_cons_of_mem _ hq)) p hp' j hj

theorem groupStep_fold_inv (infras : List Infra) :
    ∀ acc : List (String × List Infra) × Finset String,
      ((flatInfras acc.1).map Infra.infra_id).Nodup →
      (∀ x, x ∈ acc.2 ↔ x ∈ (flatInfras acc.1).map Infra.infra_id) →
      ((acc.1.map Prod.fst).Nodup) →
      (∀ p ∈ acc.1, ∀ j ∈ p.2, j.building_id = p.1) →
      ((flatInfras (infras.foldl groupStep acc).1).map Infra.infra_id).Nodup ∧
      (∀ x, x ∈ (infras.foldl groupStep acc).2 ↔
        x ∈ (flatInfras (infras.foldl groupStep acc).1).map Infra.infra_id) ∧
      (((infras.foldl groupStep acc).1.map Prod.fst).Nodup) ∧
      (∀ p ∈ (infras.foldl groupStep acc).1, ∀ j ∈ p.2, j.building_id = p.1) := by
  induction infras with
  | nil => intro acc h1 h2 h3 h4; exact ⟨h1, h2, h3, h4⟩
  | cons i rest ih =>
    intro acc h1 h2 h3 h4
    simp only [List.foldl_cons]
    by_cases hmem : i.infra_id ∈ acc.2
    · simp only [groupStep, if_pos hmem]
      exact ih acc h1 h2 h3 h4
    · simp only [groupStep, if_neg hmem]
      have hperm : List.Perm ((flatInfras (appendToGroup acc.1 i.building_id i)).map
          Infra.infra_id) (i.infra_id :: (flatInfras acc.1).map Infra.infra_id) :=
        (appendToGroup_flat_perm acc.1 i.building_id i).map Infra.infra_id
      apply ih
      · rw [hperm.nodup_iff]
        refine List.nodup_cons.mpr ⟨?_, h1⟩
        intro hc
        exact hmem ((h2 i.infra_id).mpr hc)
      · intro x
        rw [Finset.mem_insert, hperm.mem_iff, List.mem_cons, h2 x]
      · exact appendToGroup_keys_nodup h3
      · exact appendToGroup_fields h4 rfl

theorem groupStep_fold_assigned (infras : List Infra) :
    ∀ (acc : List (String × List Infra) × Finset String) (x : String),
      x ∈ (infras.foldl groupStep acc).2 ↔ x ∈ acc.2 ∨ x ∈ infras.map Infra.infra_id := by
  induction infras with
  | nil => intro acc x; simp
  | cons i rest ih =>
    intro acc x
    simp only [List.foldl_cons, List.map_cons, List.mem_cons]
    by_cases hmem : i.infra_id ∈ acc.2
    · simp only [groupStep, if_pos hmem]
      rw [ih]
      constructor
      · rintro (h | h)
        · exact Or.inl h
        · exact Or.inr (Or.inr h)
      · rintro (h | h | h)
        · exact Or.inl h
        · exact Or.inl (h ▸ hmem)
        · exact Or.inr h
    · simp only [groupStep, if_neg hmem]
      rw [ih]
      simp only [Finset.mem_insert]
      tauto

theorem lookup_isSome_iff_keys {α : Type} (g : List (String × α)) (k : String) :
    (g.lookup k).isSome ↔ k ∈ g.map Prod.fst := by
  induction g with
  | nil => simp [List.lookup]
  | cons hd tl ih =>
    obtain ⟨k1, v1⟩ := hd
    simp only [List.lookup, List.map_cons, List.mem_cons]
    cases hbeq : (k == k1) with
    | true =>
      have : k = k1 := by simpa using hbeq
      simp [this]
    | false =>
      have : k ≠ k1 := by simpa using hbeq
      simp [this, ih]

theorem addEmpty_flat (ids : List String) :
    ∀ g : List (String × List Infra),
      flatInfras (ids.foldl
        (fun g bid => if (g.lookup bid).isSome then g else g ++ [(bid, [])]) g) =
      flatInfras g := by
  induction ids with
  | nil => intro g; rfl
  | cons bid rest ih =>
    intro g
    simp only [List.foldl_cons]
    by_cases hs : (g.lookup bid).isSome
    · rw [if_pos hs, ih]
    · rw [if_neg hs, ih]
      simp [flatInfras]

theorem addEmpty_keys_nodup (ids : List String) :
    ∀ g : List (String × List Infra), (g.map Prod.fst).Nodup →
      ((ids.foldl
        (fun g bid => if (g.lookup bid).isSome then g else g ++ [(bid, [])]) g).map
          Prod.fst).Nodup := by
  induction ids with
  | nil => intro g h; exact h
  | cons bid rest ih =>
    intro g h
    simp only [List.foldl_cons]
    by_cases hs : (g.lookup bid).isSome
    · rw [if_pos hs]; exact ih g h
    · rw [if_neg hs]
      apply ih
      have hnot : bid ∉ g.map Prod.fst := fun hc =>
        hs ((lookup_isSome_iff_keys g bid).mpr hc)
      simp [List.nodup_append, h, hnot]

theorem addEmpty_fields (ids : List String) :
    ∀ g : List (String × List Infra), (∀ p ∈ g, ∀ j ∈ p.2, j.building_id = p.1) →
      ∀ p ∈ (ids.foldl
        (fun g bid => if (g.lookup bid).isSome then g else g ++ [(bid, [])]) g),
        ∀ j ∈ p.2, j.building_id = p.1 := by
  induction ids with
  | nil => intro g h; exact h
  | cons bid rest ih =>
    intro g h
    simp only [List.foldl_cons]
    by_cases hs : (g.lookup bid).isSome
    · rw [if_pos hs]; exact ih g h
    · rw [if_neg hs]
      apply ih
      intro p hp j hj
      rcases List.mem_append.mp hp with hp' | hp'
      · exact h p hp' j hj
      · simp only [List.mem_singleton] at hp'
        subst hp'
        simp at hj

theorem keys_nodup_pair_eq {g : List (String × List Infra)}
    (h : (g.map Prod.fst).Nodup) {p1 p2 : String × List Infra}
    (h1 : p1 ∈ g) (h2 : p2 ∈ g) (heq : p1.1 = p2.1) : p1 = p2 :=
  List.inj_on_of_nodup_map h h1 h2 heq

/-- C9: in the output of `group_infras_by_building`, any two buildings that
hold segments with the same id are the same building (first occurrence wins,
duplicates are dropped), and the total segment count equals the number of
distinct segment ids among the materialized infras, not the number of input
rows. -/
theorem C9_segment_dedup (df : List DfRow) (infras : List Infra) :
    (∀ b1 ∈ group_infras_by_building df infras, ∀ b2 ∈ group_infras_by_building df infras,
      ∀ i1 ∈ b1.list_infras, ∀ i2 ∈ b2.list_infras,
        i1.infra_id = i2.infra_id → b1 = b2) ∧
    ((group_infras_by_building df infras).map (fun b => b.list_infras.length)).sum =
      (infras.map Infra.infra_id).toFinset.card := by
  obtain ⟨hflatnodup, hassign_iff, hkeys, hfields⟩ :=
    groupStep_fold_inv infras ([], ∅) (by simp [flatInfras]) (by simp [flatInfras]) (by simp)
      (by simp)
  have hdef : group_infras_by_building df infras =
      ((uniqueFirst (df.map DfRow.id_batiment)).foldl
        (fun g bid => if (g.lookup bid).isSome then g else g ++ [(bid, [])])
        ((infras.foldl groupStep ([], ∅)).1)).map
        (fun p => ⟨p.1, ((buildTypeMap df).lookup p.1).getD "other", p.2⟩) := rfl
  have hflatW := addEmpty_flat (uniqueFirst (df.map DfRow.id_batiment))
    ((infras.foldl groupStep ([], ∅)).1)
  have hkeysW := addEmpty_keys_nodup (uniqueFirst (df.map DfRow.id_batiment))
    ((infras.foldl groupStep ([], ∅)).1) hkeys
  have hfieldsW := addEmpty_fields (uniqueFirst (df.map DfRow.id_batiment))
    ((infras.foldl groupStep ([], ∅)).1) hfields
  have hflatWnodup : ((flatInfras ((uniqueFirst (df.map DfRow.id_batiment)).foldl
      (fun g bid => if (g.lookup bid).isSome then g else g ++ [(bid, [])])
      ((infras.foldl groupStep ([], ∅)).1))).map Infra.infra_id).Nodup := by
    rw [hflatW]; exact hflatnodup
  constructor
  · intro b1 hb1 b2 hb2 i1 hi1 i2 hi2 hid
    rw [hdef] at hb1 hb2
    rcases List.mem_map.mp hb1 with ⟨p1, hp1, hfb1⟩
    rcases List.mem_map.mp hb2 with ⟨p2, hp2, hfb2⟩
    have hi1' : i1 ∈ p1.2 := by rw [← hfb1] at hi1; exact hi1
    have hi2' : i2 ∈ p2.2 := by rw [← hfb2] at hi2; exact hi2
    have hin1 : i1 ∈ flatInfras ((uniqueFirst (df.map DfRow.id_batiment)).foldl
        (fun g bid => if (g.lookup bid).isSome then g else g ++ [(bid, [])])
        ((infras.foldl groupStep ([], ∅)).1)) := mem_flatInfras.mpr ⟨p1, hp1, hi1'⟩
    have hin2 : i2 ∈ flatInfras ((uniqueFirst (df.map DfRow.id_batiment)).foldl
        (fun g bid => if (g.lookup bid).isSome then g else g ++ [(bid, [])])
        ((infras.foldl groupStep ([], ∅)).1)) := mem_flatInfras.mpr ⟨p2, hp2, hi2'⟩
    have hi12 : i1 = i2 := List.inj_on_of_nodup_map hflatWnodup hin1 hin2 hid
    have hk12 : p1.1 = p2.1 := by
      have hf1 := hfieldsW p1 hp1 i1 hi1'
      have hf2 := hfieldsW p2 hp2 i2 hi2'
      rw [← hf1, ← hf2, hi12]
    have hp12 : p1 = p2 := keys_nodup_pair_eq hkeysW hp1 hp2 hk12
    rw [← hfb1, ← hfb2, hp12]
  · rw [hdef, List.map_map]
    have hcomp : ((fun b : Batiment => b.list_infras.length) ∘
        (fun p : String × List Infra =>
          (⟨p.1, ((buildTypeMap df).lookup p.1).getD "other", p.2⟩ : Batiment))) =
        fun p : String × List Infra => p.2.length := rfl
    rw [hcomp]
    have hlen : (((uniqueFirst (df.map DfRow.id_batiment)).foldl
        (fun g bid => if (g.lookup bid).isSome then g else g ++ [(bid, [])])
        ((infras.foldl groupStep ([], ∅)).1)).map
          (fun p : String × List Infra => p.2.length)).sum =
        (flatInfras ((uniqueFirst (df.map DfRow.id_batiment)).foldl
          (fun g bid => if (g.lookup bid).isSome then g else g ++ [(bid, [])])
          ((infras.foldl groupStep ([], ∅)).1))).length := by
      rw [flatInfras, List.length_flatten, List.map_map]
      rfl
    rw [hlen, hflatW]
    have hlen2 : (flatInfras ((infras.foldl groupStep ([], ∅)).1)).length =
        ((flatInfras ((infras.foldl groupStep ([], ∅)).1)).map Infra.infra_id).length :=
      (List.length_map _ _).symm
    rw [hlen2, ← List.toFinset_card_of_nodup hflatnodup]
    congr 1
    ext x
    rw [List.mem_toFinset, List.mem_toFinset]
    have h1 := hassign_iff x
    have h2 := groupStep_fold_assigned infras ([], ∅) x
    rw [← h1, h2]
    simp

/-- A second segment with the already-used id `A`, referenced by another
building — dropped by the dedup. -/
def infraDupA : Infra :=
  { building_id := "Y", infra_id := "A", longueur := 7, type_infra := "aerien", nb_houses := 2 }

/-- Witness for C9: with the duplicate segment id `A` under two buildings,
both occurrences resolve to the same (first-seen) building, and the total
segment count is the number of distinct ids (1), not of input rows (2). -/
theorem C9_segment_dedup_witness :
    ((⟨"X", "other", [exampleInfraA]⟩ : Batiment) = ⟨"X", "other", [exampleInfraA]⟩) ∧
    ((group_infras_by_building [] [exampleInfraA, infraDupA]).map
        (fun b => b.list_infras.length)).sum =
      (([exampleInfraA, infraDupA]).map Infra.infra_id).toFinset.card :=
  ⟨(C9_segment_dedup [] [exampleInfraA, infraDupA]).1
      ⟨"X", "other", [exampleInfraA]⟩ (by decide) ⟨"X", "other", [exampleInfraA]⟩ (by decide)
      exampleInfraA (by decide) exampleInfraA (by decide) rfl,
    (C9_segment_dedup [] [exampleInfraA, infraDupA]).2⟩

end PlanRacc
